import Mathlib

/-!
# Verification of a TCP-like file transfer implementation

A shallow embedding of the sender (`tcp_client.py`) and receiver
(`tcp_server.py`) of a TCP-like reliable file transfer built over
unreliable datagrams, together with proofs about the congestion
control, retransmission and reassembly logic.

Modelling conventions:
* bytes are `Nat` (a payload is a `List Nat`), wall-clock times are `ℚ`;
* Python `dict`s are association lists in insertion order, with
  insertion, in-place update and removal modelled explicitly;
* the Python `float` congestion window `cwnd` is modelled as `ℚ` with
  exact arithmetic; Python `int(...)` truncation toward zero is `ratInt`;
* socket sends are returned as an explicit list of emitted messages;
* each call to `time.time()` inside one operation is modelled by the
  single parameter `now` passed to that operation.
-/

/-- Python `int(q)`: truncation of a rational toward zero. -/
def ratInt (q : ℚ) : ℤ := if 0 ≤ q then ⌊q⌋ else -⌊-q⌋

/-- First value bound to a key in an association list
(Python `dict` lookup / linear scan with `break`). -/
def lookupA {α : Type} : List (ℕ × α) → ℕ → Option α
  | [], _ => none
  | (k, v) :: rest, q => if k = q then some v else lookupA rest q

/-- Remove a key from an association list (Python `dict.pop`). -/
def eraseKeyA {α : Type} (l : List (ℕ × α)) (q : ℕ) : List (ℕ × α) :=
  l.filter (fun p => p.1 ≠ q)

/-- Overwrite the value at an existing key, keeping its position
(Python `dict[k] = v` for a present key). -/
def updateA {α : Type} (l : List (ℕ × α)) (q : ℕ) (v : α) : List (ℕ × α) :=
  l.map (fun p => if p.1 = q then (q, v) else p)

/-- Python `struct.pack` of a 4-byte big-endian unsigned integer. -/
def toBytes4 (x : ℕ) : List ℕ :=
  [x / 2 ^ 24 % 256, x / 2 ^ 16 % 256, x / 2 ^ 8 % 256, x % 256]

/-- Python `struct.pack` of a 2-byte big-endian unsigned integer. -/
def toBytes2 (x : ℕ) : List ℕ := [x / 2 ^ 8 % 256, x % 256]

/-- Python `struct.unpack` of a 4-byte big-endian unsigned integer. -/
def ofBytes4 : List ℕ → ℕ
  | [a, b, c, d] => a * 2 ^ 24 + b * 2 ^ 16 + c * 2 ^ 8 + d
  | _ => 0

/-- Python `struct.unpack` of a 2-byte big-endian unsigned integer. -/
def ofBytes2 : List ℕ → ℕ
  | [a, b] => a * 2 ^ 8 + b
  | _ => 0

/-- The `calculate_checksum` method (identical in client and server): sum of the
payload bytes modulo 65535, and 0 for an empty payload. -/
def calculate_checksum (data : List ℕ) : ℕ :=
  if data = [] then 0 else data.sum % 65535

/-- Method `TCPClient.create_packet`: 4-byte big-endian seq, 2-byte big-endian
checksum, then the payload. -/
def create_packet (seq_num : ℕ) (data : List ℕ) : List ℕ :=
  toBytes4 seq_num ++ toBytes2 (calculate_checksum data) ++ data

/-- The loop body of `TCPClient.read_file`: `k` remaining iterations of
`for i in range(0, len(file_data), 1024)`, reading the slice
`file_data[i:i+1024]` and accumulating `seq_num`. -/
def read_file_loop (data : List ℕ) : ℕ → ℕ → ℕ → List (ℕ × List ℕ)
  | 0, _, _ => []
  | Nat.succ k, i, seqn =>
      (seqn, (data.drop i).take 1024) ::
        read_file_loop data k (i + 1024) (seqn + ((data.drop i).take 1024).length)

/-- Method `TCPClient.read_file`: segment the file into `⌈N/1024⌉` chunks of at
most 1024 bytes, each keyed by its byte offset. -/
def read_file (data : List ℕ) : List (ℕ × List ℕ) :=
  read_file_loop data ((data.length + 1023) / 1024) 0 0

/-- Congestion control phase (`self.state`, a string in the source). -/
inductive Phase where
  | slow_start : Phase
  | congestion_avoidance : Phase
deriving DecidableEq, Repr

/-- The mutable state of `TCPClient` relevant to the core protocol.
`chunk_index` models the local variable `chunk_index` of
`transfer_file` (the next chunk to be sent for the first time).
An `unacked_packets` entry is `(seq, (packet_bytes, send_time,
retransmit_count))`.  The metrics dictionary and the socket are not
modelled; `next_seq_to_send` is never used by the source and is
omitted. -/
structure SenderState where
  chunks : List (ℕ × List ℕ)
  cwnd : ℚ
  ssthresh : ℤ
  state : Phase
  last_acked_seq : ℤ
  unacked_packets : List (ℕ × (List ℕ × ℚ × ℕ))
  last_ack_received : ℤ
  duplicate_ack_count : ℕ
  rtt_samples : List ℚ
  current_rtt : ℚ
  total_retransmissions : ℕ
  timeout_retransmissions : ℕ
  fast_retransmissions : ℕ
  chunk_index : ℕ
deriving Repr

/-- Constructor `TCPClient.__init__` followed by `read_file(file)`. -/
def initSender (file : List ℕ) : SenderState where
  chunks := read_file file
  cwnd := 1
  ssthresh := 64
  state := Phase.slow_start
  last_acked_seq := -1
  unacked_packets := []
  last_ack_received := -1
  duplicate_ack_count := 0
  rtt_samples := []
  current_rtt := 1 / 10
  total_retransmissions := 0
  timeout_retransmissions := 0
  fast_retransmissions := 0
  chunk_index := 0

/-- Method `TCPClient.send_packet`: transmit `create_packet seq_num data`; on a
first send insert a fresh `unacked_packets` entry (bumping the timeout
counters if flagged as a retransmit), otherwise overwrite the entry,
increment its retransmit count and bump `total_retransmissions`
together with the timeout or fast counter according to the flag. -/
def send_packet (s : SenderState) (seq_num : ℕ) (data : List ℕ)
    (is_retransmit : Bool) (now : ℚ) : SenderState × List (List ℕ) :=
  let packet := create_packet seq_num data
  match lookupA s.unacked_packets seq_num with
  | none =>
      let s1 := { s with unacked_packets :=
        s.unacked_packets ++ [(seq_num, (packet, now, 0))] }
      let s2 := if is_retransmit then
          { s1 with total_retransmissions := s1.total_retransmissions + 1,
                    timeout_retransmissions := s1.timeout_retransmissions + 1 }
        else s1
      (s2, [packet])
  | some (_, _, rc) =>
      let s1 := { s with
        unacked_packets := updateA s.unacked_packets seq_num (packet, now, rc + 1),
        total_retransmissions := s.total_retransmissions + 1 }
      let s2 := if is_retransmit then
          { s1 with timeout_retransmissions := s1.timeout_retransmissions + 1 }
        else
          { s1 with fast_retransmissions := s1.fast_retransmissions + 1 }
      (s2, [packet])

/-- The fast-retransmit block of `TCPClient.handle_ack` (executed when
the duplicate-ACK count has just reached 3): look the segment up in the
chunk table; if present, resend it, update `unacked_packets`, bump the
retransmission counters, halve `ssthresh` (floor 2), set
`cwnd := ssthresh + 3`, move to congestion avoidance and reset the
duplicate-ACK count; if absent, do nothing further. -/
def fastRetransmitBlock (s : SenderState) (ack_num : ℕ) (now : ℚ) :
    SenderState × List (List ℕ) :=
  match lookupA s.chunks ack_num with
  | none => (s, [])
  | some chunk_data =>
      let packet := create_packet ack_num chunk_data
      let unacked1 :=
        match lookupA s.unacked_packets ack_num with
        | some (_, _, rc) => updateA s.unacked_packets ack_num (packet, now, rc + 1)
        | none => s.unacked_packets ++ [(ack_num, (packet, now, 1))]
      let ssthresh1 := max (ratInt (s.cwnd / 2)) 2
      ({ s with
          unacked_packets := unacked1,
          total_retransmissions := s.total_retransmissions + 1,
          fast_retransmissions := s.fast_retransmissions + 1,
          ssthresh := ssthresh1,
          cwnd := (ssthresh1 : ℚ) + 3,
          state := Phase.congestion_avoidance,
          duplicate_ack_count := 0 }, [packet])

/-- The acked-segment test of the new-ACK path of `handle_ack`: the
chunk table yields a truthy `packet_size` and
`seq + packet_size <= ack_num`. -/
def ackCovered (chunks : List (ℕ × List ℕ)) (ack_num : ℕ) (seq : ℕ) : Bool :=
  match lookupA chunks seq with
  | some d => decide (d.length ≠ 0) && decide (seq + d.length ≤ ack_num)
  | none => false

/-- One iteration of the `for seq in acked_packets` loop of
`handle_ack`: pop the entry and, when its packet and send time are both
truthy, record an RTT sample and update the smoothed RTT. -/
def popAndRtt (st : SenderState) (q : ℕ) (now : ℚ) : SenderState :=
  match lookupA st.unacked_packets q with
  | none => st
  | some (pd, t, _) =>
      let st1 := { st with unacked_packets := eraseKeyA st.unacked_packets q }
      if pd ≠ [] ∧ t ≠ 0 then
        let rtt := now - t
        let samples := st1.rtt_samples ++ [rtt]
        { st1 with
            rtt_samples := samples,
            current_rtt := if samples.length = 1 then rtt
              else 7 / 8 * st1.current_rtt + 1 / 8 * rtt }
      else st1

/-- Method `TCPClient.handle_ack`.  Returns the updated state and the packets
transmitted during the call. -/
def handle_ack (s : SenderState) (ack_num : ℕ) (now : ℚ) :
    SenderState × List (List ℕ) :=
  if (ack_num : ℤ) = s.last_ack_received then
    let s1 := { s with duplicate_ack_count := s.duplicate_ack_count + 1 }
    if s1.duplicate_ack_count = 3 then fastRetransmitBlock s1 ack_num now
    else (s1, [])
  else if s.last_ack_received < (ack_num : ℤ) then
    let s1 := { s with duplicate_ack_count := 0,
                       last_ack_received := (ack_num : ℤ) }
    let acked :=
      (s1.unacked_packets.filter (fun e => ackCovered s1.chunks ack_num e.1)).map
        Prod.fst
    let s2 := acked.foldl (fun st q => popAndRtt st q now) s1
    let s3 := { s2 with
      last_acked_seq := max s2.last_acked_seq ((ack_num : ℤ) - 1) }
    let packets_acked := acked.length
    if s3.state = Phase.slow_start then
      let s4 := { s3 with cwnd := s3.cwnd + packets_acked }
      if (s4.ssthresh : ℚ) ≤ s4.cwnd then
        ({ s4 with state := Phase.congestion_avoidance }, [])
      else (s4, [])
    else
      let c := s3.cwnd + (packets_acked : ℚ) / s3.cwnd
      ({ s3 with cwnd := if 1 ≤ c then ((ratInt c : ℤ) : ℚ) else 1 }, [])
  else (s, [])

/-- The per-segment reaction of `TCPClient.check_timeouts`: if the
timed-out seq is in the chunk table, halve `ssthresh` (floor 2), reset
`cwnd` to 1, return to slow start and retransmit via `send_packet`. -/
def timeoutReact (s : SenderState) (q : ℕ) (now : ℚ) :
    SenderState × List (List ℕ) :=
  match lookupA s.chunks q with
  | none => (s, [])
  | some chunk_data =>
      let s1 := { s with
        ssthresh := max (ratInt (s.cwnd / 2)) 2,
        cwnd := 1,
        state := Phase.slow_start }
      send_packet s1 q chunk_data true now

/-- Method `TCPClient.check_timeouts`: snapshot the seqs whose age exceeds the
fixed 0.5 s timeout, then react to each in order. -/
def check_timeouts (s : SenderState) (now : ℚ) : SenderState × List (List ℕ) :=
  let timed_out :=
    (s.unacked_packets.filter (fun e => decide (1 / 2 < now - e.2.2.1))).map
      Prod.fst
  timed_out.foldl
    (fun acc q =>
      let r := timeoutReact acc.1 q now
      (r.1, acc.2 ++ r.2))
    (s, [])

/-- The in-flight count computed by `TCPClient.can_send_more`: entries
of `unacked_packets` whose seq has a truthy size in the chunk table and
satisfies `seq + packet_size > last_acked_seq + 1`. -/
def in_flight_count (s : SenderState) : ℕ :=
  s.unacked_packets.countP (fun e =>
    match lookupA s.chunks e.1 with
    | some d =>
        decide (d.length ≠ 0) &&
          decide (s.last_acked_seq + 1 < (e.1 : ℤ) + d.length)
    | none => false)

/-- Method `TCPClient.can_send_more`: admission rule
`in_flight_count < int(cwnd)`. -/
def can_send_more (s : SenderState) : Bool :=
  decide ((in_flight_count s : ℤ) < ratInt s.cwnd)

/-- One admission step of the send loop of `TCPClient.transfer_file`:
send the chunk at `chunk_index` for the first time and advance the
index. -/
def pump_send (s : SenderState) (now : ℚ) : SenderState × List (List ℕ) :=
  let c := s.chunks.getD s.chunk_index (0, [])
  let r := send_packet s c.1 c.2 false now
  ({ r.1 with chunk_index := s.chunk_index + 1 }, r.2)

/-- Reachable sender states: states of `TCPClient` arising from the
initial state by ACK arrivals, timeout polls and window-pump sends, in
any interleaving.  ACK arrivals carry an arbitrary value: no bound in
terms of `chunk_index` is imposed, because the fast-retransmit block of
`handle_ack` can transmit the chunk at `seq = 1024 * chunk_index`
before the pump ever sends it, after which the receiver legitimately
acknowledges bytes beyond the pump's progress (and the relation must
also cover reordered, duplicated or corrupted datagrams).  Pump sends
require an unsent chunk and the admission rule, exactly as in
`transfer_file`. -/
inductive SenderReachable (file : List ℕ) : SenderState → Prop where
  | init : SenderReachable file (initSender file)
  | ack : ∀ s n now, SenderReachable file s →
      SenderReachable file (handle_ack s n now).1
  | timeout : ∀ s now, SenderReachable file s →
      SenderReachable file (check_timeouts s now).1
  | send : ∀ s now, SenderReachable file s → s.chunk_index < s.chunks.length →
      can_send_more s = true → SenderReachable file (pump_send s now).1

/-- A 1025-byte file (two segments: 1024 bytes at seq 0, 1 byte at
seq 1024) used to exhibit a reachable sender state in which the
in-flight count differs from `|unacked_packets|`. -/
def cexFile : List ℕ := List.replicate 1025 1

/-- The pump sends the first chunk (seq 0) at time 0. -/
def cexS1 : SenderState := (pump_send (initSender cexFile) 0).1

/-- The receiver delivers chunk 0 and cumulatively acknowledges 1024. -/
def cexS2 : SenderState := (handle_ack cexS1 1024 1).1

/-- A first duplicate ACK 1024 arrives (the receiver re-acknowledges on
receiving a duplicate copy of chunk 0, e.g. after a timeout
retransmission). -/
def cexS3 : SenderState := (handle_ack cexS2 1024 1).1

/-- A second duplicate ACK 1024 arrives. -/
def cexS4 : SenderState := (handle_ack cexS3 1024 1).1

/-- The third duplicate ACK 1024 triggers fast retransmit: the sender
transmits the chunk at seq 1024 — which the pump has never sent
(`chunk_index` is still 1) — and inserts a fresh `unacked_packets`
entry for it. -/
def cexS5 : SenderState := (handle_ack cexS4 1024 1).1

/-- The receiver delivers the fast-retransmitted chunk and cumulatively
acknowledges the whole file (1025 bytes); the entry at 1024 is removed
and `last_acked_seq` becomes 1024, while `chunk_index` is still 1. -/
def cexS6 : SenderState := (handle_ack cexS5 1025 2).1

/-- The pump now sends `chunks[1]` (seq 1024) as a first-time send,
inserting an `unacked_packets` entry whose bytes are already all
acknowledged: `|unacked_packets| = 1` but the in-flight count is 0. -/
def cexS7 : SenderState := (pump_send cexS6 3).1

/-- The mutable state of `TCPServer` relevant to reassembly. -/
structure ServerState where
  expected_seq : ℕ
  received_data : List (ℕ × List ℕ)
  output_buffer : List (List ℕ)
  client_addr : Option ℕ
  ack_timer_active : Bool
  total_packets_received : ℕ
  total_checksum_errors : ℕ
deriving DecidableEq, Repr

/-- Constructor `TCPServer.__init__`. -/
def initServer : ServerState where
  expected_seq := 0
  received_data := []
  output_buffer := []
  client_addr := none
  ack_timer_active := false
  total_packets_received := 0
  total_checksum_errors := 0

/-- Method `TCPServer.verify_checksum`. -/
def verify_checksum (data : List ℕ) (received_checksum : ℕ) : Bool :=
  calculate_checksum data = received_checksum

/-- The `while self.expected_seq in self.received_data` drain loop of
`process_packet`, written with explicit fuel.  Each iteration removes a
key, so any fuel at least the length of `received_data` computes the
loop's fixpoint. -/
def drainLoop : ℕ → ServerState → ServerState
  | 0, s => s
  | Nat.succ f, s =>
      match lookupA s.received_data s.expected_seq with
      | none => s
      | some d =>
          drainLoop f
            { s with
                output_buffer := s.output_buffer ++ [d],
                expected_seq := s.expected_seq + d.length,
                received_data := eraseKeyA s.received_data s.expected_seq }

/-- Method `TCPServer.process_packet` with the probabilistic loss injection
disabled (`loss_prob = 0`, the setting of the order-independence and
duplicate-ACK claims).  Returns the updated state and the ACK values
emitted immediately during the call; the delayed-ACK timer thread is
modelled by the `ack_timer_active` flag and `send_ack_after_rtt`. -/
def process_packet (s : ServerState) (packet_data : List ℕ) (client_addr : ℕ) :
    ServerState × List ℕ :=
  if packet_data.length < 6 then (s, [])
  else
    let seq_num := ofBytes4 (packet_data.take 4)
    let checksum := ofBytes2 ((packet_data.drop 4).take 2)
    let data := packet_data.drop 6
    let s1 := { s with total_packets_received := s.total_packets_received + 1 }
    if verify_checksum data checksum = false then
      ({ s1 with total_checksum_errors := s1.total_checksum_errors + 1 }, [])
    else
      let s2 := if s1.client_addr = none then
          { s1 with client_addr := some client_addr }
        else s1
      if seq_num < s2.expected_seq then (s2, [s2.expected_seq])
      else
        let s3 := if lookupA s2.received_data seq_num = none then
            { s2 with received_data := s2.received_data ++ [(seq_num, data)],
                      ack_timer_active := true }
          else s2
        (drainLoop s3.received_data.length s3, [])

/-- Method `TCPServer.send_ack_after_rtt` (the delayed-ACK timer firing): when
armed, emit one ACK carrying the current `expected_seq` and disarm. -/
def send_ack_after_rtt (s : ServerState) : ServerState × List ℕ :=
  if s.ack_timer_active then
    ({ s with ack_timer_active := false }, [s.expected_seq])
  else (s, [])

/-- Reachable receiver states: states of `TCPServer` arising from the
initial state by processing arbitrary incoming datagrams and delayed-ACK
timer firings. -/
inductive ReceiverReachable : ServerState → Prop where
  | init : ReceiverReachable initServer
  | step : ∀ s p a, ReceiverReachable s → ReceiverReachable (process_packet s p a).1
  | fire : ∀ s, ReceiverReachable s → ReceiverReachable (send_ack_after_rtt s).1

/-- Feed a list of datagrams to the receiver in order. -/
def processAll (s : ServerState) (ps : List (List ℕ)) (a : ℕ) : ServerState :=
  ps.foldl (fun st p => (process_packet st p a).1) s

/-- Inductive invariant of reachable sender states: the chunk table is
the segmentation of the file, the congestion variables respect their
bounds, the retransmission counters are consistent, `last_acked_seq`
mirrors `last_ack_received`, and every `unacked_packets` entry
references a nonempty chunk.  (An entry whose bytes are all at or below
`last_acked_seq` is possible: the pump can re-send an already
acknowledged chunk after a fast retransmit of a not-yet-pump-sent chunk
let the receiver acknowledge ahead of the pump's progress.) -/
def SenderInv (file : List ℕ) (s : SenderState) : Prop :=
  s.chunks = read_file file ∧
  s.chunk_index ≤ s.chunks.length ∧
  1 ≤ s.cwnd ∧
  2 ≤ s.ssthresh ∧
  s.total_retransmissions = s.timeout_retransmissions + s.fast_retransmissions ∧
  s.last_acked_seq + 1 = max s.last_ack_received 0 ∧
  (s.unacked_packets.map Prod.fst).Nodup ∧
  ∀ e ∈ s.unacked_packets, ∃ d, lookupA s.chunks e.1 = some d ∧ d ≠ []

/-- Inductive invariant of reachable receiver states: `expected_seq`
counts exactly the bytes delivered in order, and once anything has been
delivered the client address has been latched. -/
def ReceiverInv (s : ServerState) : Prop :=
  s.expected_seq = (s.output_buffer.map List.length).sum ∧
  (0 < s.expected_seq → s.client_addr ≠ none)

/-- Reassembly invariant, parameterised by the number `k` of chunks of
`file` already delivered: the output buffer holds exactly the first `k`
payloads, `expected_seq` sits at the corresponding byte offset, and the
out-of-order buffer holds only chunks at or past `expected_seq`. -/
def ReasmCore (file : List ℕ) (k : ℕ) (s : ServerState) : Prop :=
  k ≤ (read_file file).length ∧
  s.output_buffer = ((read_file file).take k).map Prod.snd ∧
  s.expected_seq = min (1024 * k) file.length ∧
  ∀ e ∈ s.received_data, e ∈ read_file file ∧ s.expected_seq ≤ e.1

/-- Invariant `ReasmCore` strengthened by the post-drain property that the
out-of-order buffer holds no chunk at `expected_seq` itself. -/
def ReasmStrict (file : List ℕ) (k : ℕ) (s : ServerState) : Prop :=
  ReasmCore file k s ∧ ∀ e ∈ s.received_data, s.expected_seq < e.1

/-- Every already-arrived chunk is accounted for: either delivered
(its offset lies below `expected_seq`) or sitting in the out-of-order
buffer. -/
def CompleteFor (A : List (ℕ × List ℕ)) (s : ServerState) : Prop :=
  ∀ c ∈ A, c.1 < s.expected_seq ∨ c ∈ s.received_data

/-! ## Basic lemmas: truncation, association lists, wire format -/

theorem ratInt_eq_floor {q : ℚ} (h : 0 ≤ q) : ratInt q = ⌊q⌋ := if_pos h

theorem lookupA_nil {α : Type} (q : ℕ) : lookupA ([] : List (ℕ × α)) q = none := rfl

theorem lookupA_cons {α : Type} (k : ℕ) (v : α) (l : List (ℕ × α)) (q : ℕ) :
    lookupA ((k, v) :: l) q = if k = q then some v else lookupA l q := rfl

theorem lookupA_mem {α : Type} {l : List (ℕ × α)} {q : ℕ} {v : α}
    (h : lookupA l q = some v) : (q, v) ∈ l := by
  induction l with
  | nil => simp [lookupA] at h
  | cons e rest ih =>
      obtain ⟨k, w⟩ := e
      rw [lookupA_cons] at h
      by_cases hk : k = q
      · simp [hk] at h
        simp [hk, h]
      · simp [hk] at h
        exact List.mem_cons_of_mem _ (ih h)

theorem lookupA_eq_none_iff {α : Type} {l : List (ℕ × α)} {q : ℕ} :
    lookupA l q = none ↔ ∀ e ∈ l, e.1 ≠ q := by
  induction l with
  | nil => simp [lookupA]
  | cons e rest ih =>
      obtain ⟨k, w⟩ := e
      rw [lookupA_cons]
      by_cases hk : k = q
      · simp [hk]
      · simp [hk, ih]

theorem lookupA_isSome_of_mem {α : Type} {l : List (ℕ × α)} {e : ℕ × α}
    (h : e ∈ l) : lookupA l e.1 ≠ none := by
  intro hnone
  exact (lookupA_eq_none_iff.1 hnone) e h rfl

theorem lookupA_mem_of_nodup {α : Type} {l : List (ℕ × α)} {q : ℕ} {v : α}
    (hn : (l.map Prod.fst).Nodup) (h : (q, v) ∈ l) : lookupA l q = some v := by
  induction l with
  | nil => simp at h
  | cons e rest ih =>
      obtain ⟨k, w⟩ := e
      simp only [List.map_cons, List.nodup_cons] at hn
      rw [lookupA_cons]
      rcases List.mem_cons.1 h with h1 | h1
      · cases h1
        simp
      · have hk : k ≠ q := by
          intro hkq
          exact hn.1 (hkq ▸ (List.mem_map.2 ⟨(q, v), h1, rfl⟩))
        simp [hk]
        exact ih hn.2 h1

theorem lookupA_append_right {α : Type} {l : List (ℕ × α)} {q : ℕ}
    (h : lookupA l q = none) (e : ℕ × α) :
    lookupA (l ++ [e]) q = if e.1 = q then some e.2 else none := by
  induction l with
  | nil => simp [lookupA]
  | cons f rest ih =>
      obtain ⟨k, w⟩ := f
      rw [lookupA_cons] at h
      by_cases hk : k = q
      · simp [hk] at h
      · simp only [List.cons_append, lookupA_cons, hk, if_false]
        exact ih (by simpa [hk] using h)

theorem lookupA_append_left {α : Type} {l : List (ℕ × α)} {q : ℕ} {v : α}
    (h : lookupA l q = some v) (l' : List (ℕ × α)) :
    lookupA (l ++ l') q = some v := by
  induction l with
  | nil => simp [lookupA] at h
  | cons f rest ih =>
      obtain ⟨k, w⟩ := f
      rw [lookupA_cons] at h
      by_cases hk : k = q
      · simp [hk] at h
        simp [lookupA_cons, hk, h]
      · simp [hk] at h
        simp only [List.cons_append, lookupA_cons, hk, if_false]
        exact ih h

theorem eraseKeyA_of_lookup_none {α : Type} {l : List (ℕ × α)} {q : ℕ}
    (h : lookupA l q = none) : eraseKeyA l q = l := by
  rw [eraseKeyA, List.filter_eq_self]
  intro e he
  simpa using (lookupA_eq_none_iff.1 h) e he

theorem eraseKeyA_length_lt {α : Type} {l : List (ℕ × α)} {q : ℕ} {v : α}
    (h : lookupA l q = some v) : (eraseKeyA l q).length < l.length := by
  have hmem : (q, v) ∈ l := lookupA_mem h
  rcases List.append_of_mem hmem with ⟨l1, l2, rfl⟩
  rw [eraseKeyA, List.filter_append]
  simp only [List.length_append]
  have h2 : (List.filter (fun p => decide (p.1 ≠ q)) ((q, v) :: l2)).length
      = (List.filter (fun p => decide (p.1 ≠ q)) l2).length := by
    simp [List.filter_cons]
  rw [h2]
  have g1 := List.length_filter_le (fun p => decide (p.1 ≠ q)) l1
  have g2 := List.length_filter_le (fun p => decide (p.1 ≠ q)) l2
  simp only [List.length_append, List.length_cons]
  omega

theorem updateA_map_fst {α : Type} (l : List (ℕ × α)) (q : ℕ) (v : α) :
    (updateA l q v).map Prod.fst = l.map Prod.fst := by
  rw [updateA, List.map_map]
  refine List.map_congr_left ?_
  intro p _
  by_cases hk : p.1 = q
  · simp [hk]
  · simp [hk]

theorem mem_updateA {α : Type} {l : List (ℕ × α)} {q : ℕ} {v : α} {e : ℕ × α}
    (h : e ∈ updateA l q v) : e ∈ l ∨ e = (q, v) := by
  rw [updateA] at h
  rcases List.mem_map.1 h with ⟨f, hf, hfe⟩
  by_cases hk : f.1 = q
  · simp [hk] at hfe
    exact Or.inr hfe.symm
  · simp [hk] at hfe
    exact Or.inl (hfe ▸ hf)

theorem toBytes4_length (x : ℕ) : (toBytes4 x).length = 4 := rfl

theorem toBytes2_length (x : ℕ) : (toBytes2 x).length = 2 := rfl

theorem ofBytes4_toBytes4 {x : ℕ} (h : x < 2 ^ 32) : ofBytes4 (toBytes4 x) = x := by
  simp only [ofBytes4, toBytes4]
  omega

theorem ofBytes2_toBytes2 {x : ℕ} (h : x < 2 ^ 16) : ofBytes2 (toBytes2 x) = x := by
  simp only [ofBytes2, toBytes2]
  omega

theorem calculate_checksum_lt (d : List ℕ) : calculate_checksum d < 2 ^ 16 := by
  rw [calculate_checksum]
  split
  · omega
  · have := Nat.mod_lt d.sum (y := 65535) (by omega)
    omega

theorem create_packet_length (seq : ℕ) (d : List ℕ) :
    (create_packet seq d).length = 6 + d.length := by
  simp [create_packet, toBytes4, toBytes2]
  omega

theorem create_packet_take4 (seq : ℕ) (d : List ℕ) :
    (create_packet seq d).take 4 = toBytes4 seq := by
  simp [create_packet, toBytes4, toBytes2]

theorem create_packet_drop4_take2 (seq : ℕ) (d : List ℕ) :
    ((create_packet seq d).drop 4).take 2 = toBytes2 (calculate_checksum d) := by
  simp [create_packet, toBytes4, toBytes2]

theorem create_packet_drop6 (seq : ℕ) (d : List ℕ) :
    (create_packet seq d).drop 6 = d := by
  simp [create_packet, toBytes4, toBytes2]

theorem create_packet_ne_nil (seq : ℕ) (d : List ℕ) : create_packet seq d ≠ [] := by
  intro h
  have := create_packet_length seq d
  rw [h] at this
  simp at this
  omega

/-! ## Structure of the segmentation produced by `read_file` -/

theorem read_file_loop_length (data : List ℕ) (k : ℕ) :
    ∀ i sq, (read_file_loop data k i sq).length = k := by
  induction k with
  | zero => intro i sq; rfl
  | succ k ih =>
      intro i sq
      simp only [read_file_loop, List.length_cons, ih]

theorem read_file_loop_getElem (data : List ℕ) : ∀ (k i sq j : ℕ), sq = i →
    data.length ≤ i + 1024 * k →
    (∀ km, k = km + 1 → i + 1024 * km < data.length) → j < k →
    (read_file_loop data k i sq)[j]? =
      some (i + 1024 * j, (data.drop (i + 1024 * j)).take 1024) := by
  intro k
  induction k with
  | zero => intro i sq j _ _ _ hj; omega
  | succ k ih =>
      intro i sq j hsq h1 h3 hj
      cases j with
      | zero =>
          subst hsq
          simp [read_file_loop]
      | succ j =>
          have hk1 : j < k := by omega
          have hlast : i + 1024 * k < data.length := h3 k rfl
          have hfull : i + 1024 ≤ data.length := by
            have : 1024 ≤ 1024 * k := by omega
            omega
          have hclen : ((data.drop i).take 1024).length = 1024 := by
            simp only [List.length_take, List.length_drop]
            omega
          simp only [read_file_loop, List.getElem?_cons_succ]
          have := ih (i + 1024) (sq + ((data.drop i).take 1024).length) j
            (by omega) (by omega)
            (by
              intro km hkm
              subst hkm
              omega)
            hk1
          rw [this]
          congr 2
          · omega
          · congr 2
            omega

theorem read_file_length (data : List ℕ) :
    (read_file data).length = (data.length + 1023) / 1024 :=
  read_file_loop_length data _ 0 0

theorem read_file_getElem (data : List ℕ) {j : ℕ}
    (hj : j < (read_file data).length) :
    (read_file data)[j]? =
      some (1024 * j, (data.drop (1024 * j)).take 1024) := by
  rw [read_file_length] at hj
  have hd := Nat.div_add_mod (data.length + 1023) 1024
  have hm := Nat.mod_lt (data.length + 1023) (y := 1024) (by omega)
  have h := read_file_loop_getElem data ((data.length + 1023) / 1024) 0 0 j rfl
    (by omega)
    (by
      intro km hkm
      omega)
    hj
  simpa using h

theorem read_file_getElem_eq (data : List ℕ) {j : ℕ}
    (hj : j < (read_file data).length) :
    (read_file data)[j] = (1024 * j, (data.drop (1024 * j)).take 1024) := by
  have h := read_file_getElem data hj
  rw [List.getElem?_eq_some_iff] at h
  exact h.2

theorem read_file_start_lt (data : List ℕ) {j : ℕ}
    (hj : j < (read_file data).length) : 1024 * j < data.length := by
  rw [read_file_length] at hj
  have hd := Nat.div_add_mod (data.length + 1023) 1024
  have hm := Nat.mod_lt (data.length + 1023) (y := 1024) (by omega)
  omega

theorem read_file_snd_length (data : List ℕ) {j : ℕ}
    (hj : j < (read_file data).length) :
    ((read_file data)[j]).2.length = min 1024 (data.length - 1024 * j) := by
  rw [read_file_getElem_eq data hj]
  simp [List.length_take, List.length_drop]

theorem read_file_snd_ne_nil (data : List ℕ) {j : ℕ}
    (hj : j < (read_file data).length) : ((read_file data)[j]).2 ≠ [] := by
  have h1 := read_file_snd_length data hj
  have h2 := read_file_start_lt data hj
  intro hnil
  rw [hnil] at h1
  simp at h1
  omega

theorem read_file_mem_iff {data : List ℕ} {c : ℕ × List ℕ} :
    c ∈ read_file data ↔
      ∃ j, ∃ _ : j < (read_file data).length,
        c = (1024 * j, (data.drop (1024 * j)).take 1024) := by
  rw [List.mem_iff_getElem]
  constructor
  · rintro ⟨j, hj, rfl⟩
    exact ⟨j, hj, read_file_getElem_eq data hj⟩
  · rintro ⟨j, hj, rfl⟩
    exact ⟨j, hj, read_file_getElem_eq data hj⟩

theorem read_file_mem_snd_ne_nil {data : List ℕ} {c : ℕ × List ℕ}
    (h : c ∈ read_file data) : c.2 ≠ [] := by
  rcases List.mem_iff_getElem.1 h with ⟨j, hj, rfl⟩
  have h1 := read_file_snd_length data hj
  have h2 := read_file_start_lt data hj
  intro hnil
  rw [hnil] at h1
  simp at h1
  omega

theorem read_file_keys_nodup (data : List ℕ) :
    ((read_file data).map Prod.fst).Nodup := by
  rw [List.nodup_iff_getElem?_ne_getElem?]
  intro i j hij hj
  rw [List.length_map] at hj
  have hi : i < (read_file data).length := by omega
  rw [List.getElem?_map, List.getElem?_map, read_file_getElem data hi,
    read_file_getElem data hj]
  simp
  omega


theorem lookupA_read_file_getElem (data : List ℕ) {j : ℕ}
    (hj : j < (read_file data).length) :
    lookupA (read_file data) (1024 * j) = some ((read_file data)[j]).2 := by
  have hmem : (1024 * j, ((read_file data)[j]).2) ∈ read_file data := by
    have := read_file_getElem_eq data hj
    rw [show (1024 * j, ((read_file data)[j]).2) = (read_file data)[j] by
      rw [this]]
    exact List.getElem_mem hj
  exact lookupA_mem_of_nodup (read_file_keys_nodup data) hmem

theorem lookupA_read_file_eq_some {data : List ℕ} {q : ℕ} {d : List ℕ}
    (h : lookupA (read_file data) q = some d) :
    ∃ j, ∃ _ : j < (read_file data).length,
      q = 1024 * j ∧ d = (data.drop (1024 * j)).take 1024 := by
  have hmem := lookupA_mem h
  rcases read_file_mem_iff.1 hmem with ⟨j, hj, hc⟩
  refine ⟨j, hj, ?_, ?_⟩
  · exact congrArg Prod.fst hc
  · exact congrArg Prod.snd hc

theorem read_file_flatten_drop (data : List ℕ) : ∀ (k i sq : ℕ),
    data.length ≤ i + 1024 * k →
    ((read_file_loop data k i sq).map Prod.snd).flatten = data.drop i := by
  intro k
  induction k with
  | zero =>
      intro i sq h1
      simp only [read_file_loop, List.map_nil, List.flatten_nil]
      rw [eq_comm, List.drop_eq_nil_iff]
      omega
  | succ k ih =>
      intro i sq h1
      simp only [read_file_loop, List.map_cons, List.flatten_cons]
      rw [ih (i + 1024) _ (by omega)]
      rw [← List.drop_drop, List.take_append_drop]

theorem read_file_flatten (data : List ℕ) :
    ((read_file data).map Prod.snd).flatten = data := by
  have hd := Nat.div_add_mod (data.length + 1023) 1024
  have hm := Nat.mod_lt (data.length + 1023) (y := 1024) (by omega)
  have := read_file_flatten_drop data ((data.length + 1023) / 1024) 0 0 (by omega)
  simpa using this

theorem read_file_take_flatten (data : List ℕ) : ∀ (m : ℕ),
    m ≤ (read_file data).length →
    (((read_file data).take m).map Prod.snd).flatten = data.take (1024 * m) := by
  intro m
  induction m with
  | zero => simp
  | succ m ih =>
      intro hm
      have hm' : m < (read_file data).length := by omega
      rw [List.take_succ, List.map_append, List.flatten_append, ih (by omega)]
      rw [List.getElem?_eq_getElem hm', read_file_getElem_eq data hm']
      simp only [Option.toList_some, List.map_cons, List.map_nil,
        List.flatten_cons, List.flatten_nil, List.append_nil]
      rw [show 1024 * (m + 1) = 1024 * m + 1024 by ring, List.take_add]

theorem read_file_length_le (data : List ℕ) :
    data.length ≤ 1024 * (read_file data).length := by
  rw [read_file_length]
  have hd := Nat.div_add_mod (data.length + 1023) 1024
  have hm := Nat.mod_lt (data.length + 1023) (y := 1024) (by omega)
  omega

/-- C9: for every input byte buffer of length `N`, `read_file` produces
exactly `⌈N/1024⌉` segments whose seq values are `0, 1024, 2048, …`;
every payload has length exactly 1024 except possibly the last, whose
length is `N` minus the 1024 bytes of each preceding segment; the
concatenation of all payloads is the input; and an empty buffer yields
the empty segmentation. -/
theorem C9_read_file_segmentation (data : List ℕ) :
    (read_file data).length = (data.length + 1023) / 1024 ∧
    (∀ j (hj : j < (read_file data).length),
      ((read_file data)[j]).1 = 1024 * j) ∧
    (∀ j (hj : j < (read_file data).length), j + 1 < (read_file data).length →
      ((read_file data)[j]).2.length = 1024) ∧
    (∀ j (hj : j < (read_file data).length), j + 1 = (read_file data).length →
      ((read_file data)[j]).2.length = data.length - 1024 * j) ∧
    ((read_file data).map Prod.snd).flatten = data ∧
    (data = [] → read_file data = []) := by
  refine ⟨read_file_length data, ?_, ?_, ?_, read_file_flatten data, ?_⟩
  · intro j hj
    rw [read_file_getElem_eq data hj]
  · intro j hj hj1
    rw [read_file_snd_length data hj]
    have := read_file_start_lt data (j := j + 1) hj1
    omega
  · intro j hj hj1
    rw [read_file_snd_length data hj]
    have h1 := read_file_length_le data
    have h2 := read_file_start_lt data hj
    omega
  · intro h
    subst h
    rfl

/-- Witness for C9 at a concrete 2500-byte input (three segments) and
the empty input. -/
theorem C9_witness :
    (read_file (List.replicate 2500 3)).length = 3 ∧
    ((read_file (List.replicate 2500 3)).map Prod.snd).flatten
      = List.replicate 2500 3 ∧
    read_file ([] : List ℕ) = [] := by
  refine ⟨(C9_read_file_segmentation (List.replicate 2500 3)).1.trans ?_,
    (C9_read_file_segmentation (List.replicate 2500 3)).2.2.2.2.1,
    (C9_read_file_segmentation ([] : List ℕ)).2.2.2.2.2 rfl⟩
  rw [List.length_replicate]

/-! ## C1: duplicate ACKs and fast retransmit -/

theorem max_ratInt_two (q : ℚ) : max (ratInt q) 2 = max ⌊q⌋ 2 := by
  rw [ratInt]
  split
  · rfl
  · rename_i h
    push_neg at h
    have h1 : ⌊q⌋ ≤ 0 := Int.floor_nonpos h.le
    have h2 : 0 ≤ ⌊-q⌋ := Int.floor_nonneg.2 (by linarith)
    omega

/-- C1 counterexample: a sender state (one 1-byte file, fully sent and
acknowledged) receiving a third duplicate ACK whose value 1 matches no
segment seq.  `handle_ack` transmits nothing, leaves `ssthresh`,
`cwnd` and the phase untouched, and does not reset
`duplicate_ack_count` to 0 — contradicting the claim that reaching
exactly 3 always triggers the retransmission and window update. -/
theorem C1_counterexample :
    (let s : SenderState :=
      { chunks := [(0, [1])], cwnd := 8, ssthresh := 64,
        state := Phase.slow_start, last_acked_seq := 0,
        unacked_packets := [], last_ack_received := 1,
        duplicate_ack_count := 2, rtt_samples := [], current_rtt := 1 / 10,
        total_retransmissions := 0, timeout_retransmissions := 0,
        fast_retransmissions := 0, chunk_index := 1 };
     (handle_ack s 1 0).2 = [] ∧
     (handle_ack s 1 0).1.ssthresh = 64 ∧
     (handle_ack s 1 0).1.cwnd = 8 ∧
     (handle_ack s 1 0).1.state = Phase.slow_start ∧
     ¬ (handle_ack s 1 0).1.duplicate_ack_count = 0) := by
  decide

/-- C1 (amended): provided the segment table contains a segment whose
seq equals `ack_num`, receiving an ACK equal to `last_ack_received`
increments `duplicate_ack_count`, and when the count reaches exactly 3
the sender re-sends that segment's original payload, sets
`ssthresh := max(⌊cwnd/2⌋, 2)`, `cwnd := ssthresh + 3`, moves to
congestion avoidance and resets the duplicate-ACK count to 0. -/
theorem C1_fast_retransmit (s : SenderState) (ack_num : ℕ) (now : ℚ)
    (d : List ℕ) (hdup : (ack_num : ℤ) = s.last_ack_received)
    (hchunk : lookupA s.chunks ack_num = some d) :
    (s.duplicate_ack_count + 1 ≠ 3 →
      (handle_ack s ack_num now).1 =
        { s with duplicate_ack_count := s.duplicate_ack_count + 1 } ∧
      (handle_ack s ack_num now).2 = []) ∧
    (s.duplicate_ack_count + 1 = 3 →
      (handle_ack s ack_num now).2 = [create_packet ack_num d] ∧
      (handle_ack s ack_num now).1.ssthresh = max ⌊s.cwnd / 2⌋ 2 ∧
      (handle_ack s ack_num now).1.cwnd =
        (((handle_ack s ack_num now).1.ssthresh : ℤ) : ℚ) + 3 ∧
      (handle_ack s ack_num now).1.state = Phase.congestion_avoidance ∧
      (handle_ack s ack_num now).1.duplicate_ack_count = 0) := by
  constructor
  · intro hne
    rw [handle_ack, if_pos hdup]
    dsimp only
    rw [if_neg hne]
    exact ⟨rfl, rfl⟩
  · intro heq
    rw [handle_ack, if_pos hdup]
    dsimp only
    rw [if_pos heq, fastRetransmitBlock]
    dsimp only
    rw [hchunk]
    dsimp only
    refine ⟨rfl, ?_, rfl, rfl, rfl⟩
    exact max_ratInt_two (s.cwnd / 2)

/-- Witness for C1 at a concrete state: one 9-byte chunk at seq 0, two
prior duplicate ACKs, third duplicate ACK 0 triggers the fast
retransmit. -/
theorem C1_witness :
    (let s : SenderState :=
      { chunks := [(0, [9])], cwnd := 8, ssthresh := 64,
        state := Phase.slow_start, last_acked_seq := -1,
        unacked_packets := [(0, (create_packet 0 [9], 0, 0))],
        last_ack_received := 0, duplicate_ack_count := 2, rtt_samples := [],
        current_rtt := 1 / 10, total_retransmissions := 0,
        timeout_retransmissions := 0, fast_retransmissions := 0,
        chunk_index := 1 };
     (s.duplicate_ack_count + 1 ≠ 3 →
      (handle_ack s 0 0).1 =
        { s with duplicate_ack_count := s.duplicate_ack_count + 1 } ∧
      (handle_ack s 0 0).2 = []) ∧
     (s.duplicate_ack_count + 1 = 3 →
      (handle_ack s 0 0).2 = [create_packet 0 [9]] ∧
      (handle_ack s 0 0).1.ssthresh = max ⌊(8 : ℚ) / 2⌋ 2 ∧
      (handle_ack s 0 0).1.cwnd =
        (((handle_ack s 0 0).1.ssthresh : ℤ) : ℚ) + 3 ∧
      (handle_ack s 0 0).1.state = Phase.congestion_avoidance ∧
      (handle_ack s 0 0).1.duplicate_ack_count = 0)) :=
  C1_fast_retransmit _ 0 0 [9] (by decide) (by decide)

/-! ## The new-ACK path of `handle_ack` -/

theorem nodup_keys_entry_eq {α : Type} {l : List (ℕ × α)}
    (hn : (l.map Prod.fst).Nodup) {e e' : ℕ × α}
    (he : e ∈ l) (he' : e' ∈ l) (hk : e.1 = e'.1) : e = e' := by
  have h1 : lookupA l e.1 = some e.2 := by
    obtain ⟨a, b⟩ := e
    exact lookupA_mem_of_nodup hn he
  have h2 : lookupA l e'.1 = some e'.2 := by
    obtain ⟨a, b⟩ := e'
    exact lookupA_mem_of_nodup hn he'
  rw [hk, h2] at h1
  obtain ⟨a, b⟩ := e
  obtain ⟨a', b'⟩ := e'
  simp at hk h1
  exact Prod.ext hk h1.symm

theorem popAndRtt_unacked (st : SenderState) (q : ℕ) (now : ℚ) :
    (popAndRtt st q now).unacked_packets = eraseKeyA st.unacked_packets q := by
  rw [popAndRtt]
  cases h : lookupA st.unacked_packets q with
  | none =>
      rw [eraseKeyA_of_lookup_none h]
  | some v =>
      obtain ⟨pd, t, rc⟩ := v
      dsimp only
      split
      · rfl
      · rfl

theorem popAndRtt_frame (st : SenderState) (q : ℕ) (now : ℚ) :
    (popAndRtt st q now).chunks = st.chunks ∧
    (popAndRtt st q now).cwnd = st.cwnd ∧
    (popAndRtt st q now).ssthresh = st.ssthresh ∧
    (popAndRtt st q now).state = st.state ∧
    (popAndRtt st q now).last_acked_seq = st.last_acked_seq ∧
    (popAndRtt st q now).last_ack_received = st.last_ack_received ∧
    (popAndRtt st q now).duplicate_ack_count = st.duplicate_ack_count ∧
    (popAndRtt st q now).total_retransmissions = st.total_retransmissions ∧
    (popAndRtt st q now).timeout_retransmissions = st.timeout_retransmissions ∧
    (popAndRtt st q now).fast_retransmissions = st.fast_retransmissions ∧
    (popAndRtt st q now).chunk_index = st.chunk_index := by
  rw [popAndRtt]
  cases h : lookupA st.unacked_packets q with
  | none => exact ⟨rfl, rfl, rfl, rfl, rfl, rfl, rfl, rfl, rfl, rfl, rfl⟩
  | some v =>
      obtain ⟨pd, t, rc⟩ := v
      dsimp only
      split
      · exact ⟨rfl, rfl, rfl, rfl, rfl, rfl, rfl, rfl, rfl, rfl, rfl⟩
      · exact ⟨rfl, rfl, rfl, rfl, rfl, rfl, rfl, rfl, rfl, rfl, rfl⟩

theorem foldl_popAndRtt_unacked (now : ℚ) : ∀ (ks : List ℕ) (s : SenderState),
    (List.foldl (fun st q => popAndRtt st q now) s ks).unacked_packets =
      s.unacked_packets.filter (fun e => decide (e.1 ∉ ks)) := by
  intro ks
  induction ks with
  | nil =>
      intro s
      simp
  | cons q ks ih =>
      intro s
      rw [List.foldl_cons, ih, popAndRtt_unacked, eraseKeyA, List.filter_filter]
      apply List.filter_congr
      intro e _
      by_cases h1 : e.1 = q
      · simp [h1]
      · by_cases h2 : e.1 ∈ ks <;> simp [h1, h2]

theorem foldl_popAndRtt_frame (now : ℚ) : ∀ (ks : List ℕ) (s : SenderState),
    (List.foldl (fun st q => popAndRtt st q now) s ks).chunks = s.chunks ∧
    (List.foldl (fun st q => popAndRtt st q now) s ks).cwnd = s.cwnd ∧
    (List.foldl (fun st q => popAndRtt st q now) s ks).ssthresh = s.ssthresh ∧
    (List.foldl (fun st q => popAndRtt st q now) s ks).state = s.state ∧
    (List.foldl (fun st q => popAndRtt st q now) s ks).last_acked_seq
      = s.last_acked_seq ∧
    (List.foldl (fun st q => popAndRtt st q now) s ks).last_ack_received
      = s.last_ack_received ∧
    (List.foldl (fun st q => popAndRtt st q now) s ks).duplicate_ack_count
      = s.duplicate_ack_count ∧
    (List.foldl (fun st q => popAndRtt st q now) s ks).total_retransmissions
      = s.total_retransmissions ∧
    (List.foldl (fun st q => popAndRtt st q now) s ks).timeout_retransmissions
      = s.timeout_retransmissions ∧
    (List.foldl (fun st q => popAndRtt st q now) s ks).fast_retransmissions
      = s.fast_retransmissions ∧
    (List.foldl (fun st q => popAndRtt st q now) s ks).chunk_index
      = s.chunk_index := by
  intro ks
  induction ks with
  | nil =>
      intro s
      exact ⟨rfl, rfl, rfl, rfl, rfl, rfl, rfl, rfl, rfl, rfl, rfl⟩
  | cons q ks ih =>
      intro s
      have h1 := popAndRtt_frame s q now
      have h2 := ih (popAndRtt s q now)
      rw [List.foldl_cons]
      refine ⟨?_, ?_, ?_, ?_, ?_, ?_, ?_, ?_, ?_, ?_, ?_⟩
      · rw [h2.1, h1.1]
      · rw [h2.2.1, h1.2.1]
      · rw [h2.2.2.1, h1.2.2.1]
      · rw [h2.2.2.2.1, h1.2.2.2.1]
      · rw [h2.2.2.2.2.1, h1.2.2.2.2.1]
      · rw [h2.2.2.2.2.2.1, h1.2.2.2.2.2.1]
      · rw [h2.2.2.2.2.2.2.1, h1.2.2.2.2.2.2.1]
      · rw [h2.2.2.2.2.2.2.2.1, h1.2.2.2.2.2.2.2.1]
      · rw [h2.2.2.2.2.2.2.2.2.1, h1.2.2.2.2.2.2.2.2.1]
      · rw [h2.2.2.2.2.2.2.2.2.2.1, h1.2.2.2.2.2.2.2.2.2.1]
      · rw [h2.2.2.2.2.2.2.2.2.2.2, h1.2.2.2.2.2.2.2.2.2.2]

theorem mem_map_fst_filter_key {α : Type} (cov : ℕ → Bool) (l : List (ℕ × α))
    (e : ℕ × α) (he : e ∈ l) :
    e.1 ∈ (l.filter (fun p => cov p.1)).map Prod.fst ↔ cov e.1 = true := by
  constructor
  · intro h
    rcases List.mem_map.1 h with ⟨f, hf, hfe⟩
    rcases List.mem_filter.1 hf with ⟨_, hcov⟩
    rw [← hfe]
    exact hcov
  · intro h
    exact List.mem_map.2 ⟨e, List.mem_filter.2 ⟨he, h⟩, rfl⟩

theorem handle_ack_new_spec (s : SenderState) (n : ℕ) (now : ℚ)
    (hNew : s.last_ack_received < (n : ℤ)) :
    (handle_ack s n now).2 = [] ∧
    (handle_ack s n now).1.chunks = s.chunks ∧
    (handle_ack s n now).1.unacked_packets =
      s.unacked_packets.filter (fun e => !(ackCovered s.chunks n e.1)) ∧
    (handle_ack s n now).1.last_ack_received = (n : ℤ) ∧
    (handle_ack s n now).1.last_acked_seq
      = max s.last_acked_seq ((n : ℤ) - 1) ∧
    (handle_ack s n now).1.duplicate_ack_count = 0 ∧
    (handle_ack s n now).1.total_retransmissions = s.total_retransmissions ∧
    (handle_ack s n now).1.timeout_retransmissions
      = s.timeout_retransmissions ∧
    (handle_ack s n now).1.fast_retransmissions = s.fast_retransmissions ∧
    (handle_ack s n now).1.chunk_index = s.chunk_index ∧
    (handle_ack s n now).1.ssthresh = s.ssthresh ∧
    (s.state = Phase.slow_start →
      (handle_ack s n now).1.cwnd = s.cwnd +
        ((s.unacked_packets.filter
          (fun e => ackCovered s.chunks n e.1)).length : ℚ) ∧
      ((handle_ack s n now).1.state = Phase.congestion_avoidance ↔
        (s.ssthresh : ℚ) ≤ s.cwnd +
          ((s.unacked_packets.filter
            (fun e => ackCovered s.chunks n e.1)).length : ℚ))) ∧
    (s.state = Phase.congestion_avoidance →
      (handle_ack s n now).1.state = Phase.congestion_avoidance ∧
      (handle_ack s n now).1.cwnd =
        (if 1 ≤ s.cwnd + ((s.unacked_packets.filter
              (fun e => ackCovered s.chunks n e.1)).length : ℚ) / s.cwnd
         then ((ratInt (s.cwnd + ((s.unacked_packets.filter
              (fun e => ackCovered s.chunks n e.1)).length : ℚ) / s.cwnd) : ℤ) : ℚ)
         else 1)) := by
  have hne : ¬((n : ℤ) = s.last_ack_received) := by omega
  rw [handle_ack, if_neg hne, if_pos hNew]
  simp only []
  set acked := List.map Prod.fst
    (List.filter (fun e => ackCovered s.chunks n e.1) s.unacked_packets)
    with hacked
  set u := List.foldl (fun st q => popAndRtt st q now)
    { s with last_ack_received := (n : ℤ), duplicate_ack_count := 0 } acked
    with hu
  have hfr := foldl_popAndRtt_frame now acked
    { s with last_ack_received := (n : ℤ), duplicate_ack_count := 0 }
  rw [← hu] at hfr
  have hun := foldl_popAndRtt_unacked now acked
    { s with last_ack_received := (n : ℤ), duplicate_ack_count := 0 }
  rw [← hu] at hun
  obtain ⟨hch, hcw, hss, hst, hlas, hlar, hdup, htot, htim, hfa, hci⟩ := hfr
  dsimp only at hch hcw hss hst hlas hlar hdup htot htim hfa hci hun
  have hunacked : u.unacked_packets =
      s.unacked_packets.filter (fun e => !(ackCovered s.chunks n e.1)) := by
    rw [hun]
    apply List.filter_congr
    intro e he
    have := mem_map_fst_filter_key (ackCovered s.chunks n) s.unacked_packets e he
    rw [← hacked] at this
    by_cases hc : ackCovered s.chunks n e.1 <;> simp [hc] at this ⊢
    · exact this
    · exact this
  have hK : (acked.length : ℚ) =
      ((s.unacked_packets.filter
        (fun e => ackCovered s.chunks n e.1)).length : ℚ) := by
    rw [hacked, List.length_map]
  cases hphase : s.state with
  | slow_start =>
      have hphase' : u.state = Phase.slow_start := by rw [hst, hphase]
      rw [if_pos hphase']
      by_cases hcond : (u.ssthresh : ℚ) ≤ u.cwnd + (acked.length : ℚ)
      · rw [if_pos hcond]
        rw [hss, hcw, hK] at hcond
        refine ⟨rfl, hch, hunacked, hlar, by rw [hlas], hdup, htot, htim, hfa,
          hci, hss, ?_, ?_⟩
        · intro _
          constructor
          · rw [hcw, hK]
          · simp [hcond]
        · intro hca
          exact absurd hca (by decide)
      · rw [if_neg hcond]
        rw [hss, hcw, hK] at hcond
        refine ⟨rfl, hch, hunacked, hlar, by rw [hlas], hdup, htot, htim, hfa,
          hci, hss, ?_, ?_⟩
        · intro _
          constructor
          · rw [hcw, hK]
          · rw [hphase']
            simp [hcond]
        · intro hca
          exact absurd hca (by decide)
  | congestion_avoidance =>
      rw [if_neg (by rw [hst, hphase]; decide)]
      refine ⟨rfl, hch, hunacked, hlar, by rw [hlas], hdup, htot, htim, hfa,
        hci, hss, ?_, ?_⟩
      · intro hsl
        exact absurd hsl (by decide)
      · intro _
        refine ⟨by rw [hst, hphase], ?_⟩
        rw [hcw, hK]

/-! ## C2: congestion-window growth on a new cumulative ACK -/

/-- C2: on an ACK with `ack_num` strictly above `last_ack_received`,
with `K` the number of entries removed from `unacked_packets` (those
whose seq plus payload length is at most `ack_num`): in slow start
`cwnd` grows by `K` and the phase moves to congestion avoidance exactly
when the resulting `cwnd` reaches `ssthresh`; in congestion avoidance
`cwnd` becomes `cwnd + K/cwnd` truncated toward zero and clamped to a
minimum of 1.  Hypotheses: `cwnd ≥ 1` (true in every reachable state,
and required since Python would divide by zero otherwise) and every
unacked entry references a nonempty chunk (the data-model invariant of
`unacked`). -/
theorem C2_new_ack_window (s : SenderState) (n : ℕ) (now : ℚ)
    (hNew : s.last_ack_received < (n : ℤ))
    (hcw : 1 ≤ s.cwnd)
    (hchunks : ∀ e ∈ s.unacked_packets,
      ∃ d, lookupA s.chunks e.1 = some d ∧ d ≠ []) :
    (handle_ack s n now).1.unacked_packets =
      s.unacked_packets.filter (fun e =>
        !(match lookupA s.chunks e.1 with
          | some d => decide (e.1 + d.length ≤ n)
          | none => false)) ∧
    (s.state = Phase.slow_start →
      (handle_ack s n now).1.cwnd = s.cwnd +
        ((s.unacked_packets.filter (fun e =>
          match lookupA s.chunks e.1 with
          | some d => decide (e.1 + d.length ≤ n)
          | none => false)).length : ℚ) ∧
      ((handle_ack s n now).1.state = Phase.congestion_avoidance ↔
        (s.ssthresh : ℚ) ≤ (handle_ack s n now).1.cwnd)) ∧
    (s.state = Phase.congestion_avoidance →
      (handle_ack s n now).1.state = Phase.congestion_avoidance ∧
      (handle_ack s n now).1.cwnd =
        ((max ⌊s.cwnd + ((s.unacked_packets.filter (fun e =>
            match lookupA s.chunks e.1 with
            | some d => decide (e.1 + d.length ≤ n)
            | none => false)).length : ℚ) / s.cwnd⌋ 1 : ℤ) : ℚ)) := by
  have spec := handle_ack_new_spec s n now hNew
  have hpred : ∀ e ∈ s.unacked_packets, ackCovered s.chunks n e.1 =
      (match lookupA s.chunks e.1 with
       | some d => decide (e.1 + d.length ≤ n)
       | none => false) := by
    intro e he
    rcases hchunks e he with ⟨d, hd, hdne⟩
    rw [ackCovered, hd]
    have : d.length ≠ 0 := by
      intro h0
      exact hdne (List.eq_nil_of_length_eq_zero h0)
    simp [this]
  have hfiltereq : s.unacked_packets.filter
      (fun e => ackCovered s.chunks n e.1) =
      s.unacked_packets.filter (fun e =>
        match lookupA s.chunks e.1 with
        | some d => decide (e.1 + d.length ≤ n)
        | none => false) :=
    List.filter_congr hpred
  refine ⟨?_, ?_, ?_⟩
  · rw [spec.2.2.1]
    apply List.filter_congr
    intro e he
    rw [hpred e he]
  · intro hsl
    obtain ⟨hcwnd, hiff⟩ := spec.2.2.2.2.2.2.2.2.2.2.2.1 hsl
    rw [hfiltereq] at hcwnd hiff
    exact ⟨hcwnd, by rw [hcwnd]; exact hiff⟩
  · intro hca
    obtain ⟨hstate, hcwnd⟩ := spec.2.2.2.2.2.2.2.2.2.2.2.2 hca
    rw [hfiltereq] at hcwnd
    refine ⟨hstate, ?_⟩
    set K : ℚ := ((s.unacked_packets.filter (fun e =>
        match lookupA s.chunks e.1 with
        | some d => decide (e.1 + d.length ≤ n)
        | none => false)).length : ℚ) with hKdef
    have hKnn : 0 ≤ K := by
      rw [hKdef]
      exact_mod_cast Nat.zero_le _
    have hcpos : 0 < s.cwnd := lt_of_lt_of_le one_pos hcw
    have hc1 : 1 ≤ s.cwnd + K / s.cwnd := by
      have : 0 ≤ K / s.cwnd := div_nonneg hKnn hcpos.le
      linarith
    rw [hcwnd, if_pos hc1, ratInt_eq_floor (by linarith)]
    have hfl : 1 ≤ ⌊s.cwnd + K / s.cwnd⌋ := Int.le_floor.2 (by exact_mod_cast hc1)
    rw [max_eq_left hfl]

/-- Witness for C2: the initial sender for a 3-byte file after sending
its single chunk, receiving the cumulative ACK 3 in slow start. -/
theorem C2_witness :
    (let s : SenderState := (pump_send (initSender [1, 2, 3]) 0).1;
     (handle_ack s 3 1).1.unacked_packets =
       s.unacked_packets.filter (fun e =>
         !(match lookupA s.chunks e.1 with
           | some d => decide (e.1 + d.length ≤ 3)
           | none => false)) ∧
     (s.state = Phase.slow_start →
       (handle_ack s 3 1).1.cwnd = s.cwnd +
         ((s.unacked_packets.filter (fun e =>
           match lookupA s.chunks e.1 with
           | some d => decide (e.1 + d.length ≤ 3)
           | none => false)).length : ℚ) ∧
       ((handle_ack s 3 1).1.state = Phase.congestion_avoidance ↔
         (s.ssthresh : ℚ) ≤ (handle_ack s 3 1).1.cwnd)) ∧
     (s.state = Phase.congestion_avoidance →
       (handle_ack s 3 1).1.state = Phase.congestion_avoidance ∧
       (handle_ack s 3 1).1.cwnd =
         ((max ⌊s.cwnd + ((s.unacked_packets.filter (fun e =>
             match lookupA s.chunks e.1 with
             | some d => decide (e.1 + d.length ≤ 3)
             | none => false)).length : ℚ) / s.cwnd⌋ 1 : ℤ) : ℚ))) := by
  refine C2_new_ack_window _ 3 1 (by decide) (by decide) ?_
  intro e he
  rw [show (pump_send (initSender [1, 2, 3]) 0).1.unacked_packets
      = [(0, (create_packet 0 [1, 2, 3], (0 : ℚ), 0))] from rfl] at he
  simp at he
  rw [he]
  exact ⟨[1, 2, 3], rfl, by decide⟩

theorem lookupA_updateA_ne {α : Type} (l : List (ℕ × α)) (q q' : ℕ) (v : α)
    (h : q' ≠ q) : lookupA (updateA l q v) q' = lookupA l q' := by
  induction l with
  | nil => rfl
  | cons e rest ih =>
      obtain ⟨k, w⟩ := e
      by_cases hk : k = q
      · subst hk
        simp only [updateA, List.map_cons, if_pos rfl]
        rw [lookupA_cons, lookupA_cons, if_neg (fun hq => h hq.symm),
          if_neg (fun hq => h hq.symm)]
        exact ih
      · simp only [updateA, List.map_cons, if_neg hk]
        rw [lookupA_cons, lookupA_cons]
        by_cases hk' : k = q'
        · simp [hk']
        · rw [if_neg hk', if_neg hk']
          exact ih

theorem lookupA_updateA_self {α : Type} (l : List (ℕ × α)) (q : ℕ) (v w : α)
    (h : lookupA l q = some w) : lookupA (updateA l q v) q = some v := by
  induction l with
  | nil => simp [lookupA] at h
  | cons e rest ih =>
      obtain ⟨k, w'⟩ := e
      rw [lookupA_cons] at h
      by_cases hk : k = q
      · subst hk
        simp [updateA, lookupA_cons]
      · simp only [updateA, List.map_cons, if_neg hk]
        rw [lookupA_cons, if_neg hk]
        simp [hk] at h
        exact ih h

theorem timeoutReact_spec (s0 : SenderState) (q : ℕ) (now : ℚ) (d : List ℕ)
    (pd : List ℕ) (t : ℚ) (rc : ℕ)
    (hd : lookupA s0.chunks q = some d)
    (hv : lookupA s0.unacked_packets q = some (pd, t, rc)) :
    timeoutReact s0 q now =
      ({ s0 with
          ssthresh := max (ratInt (s0.cwnd / 2)) 2,
          cwnd := 1,
          state := Phase.slow_start,
          unacked_packets :=
            updateA s0.unacked_packets q (create_packet q d, now, rc + 1),
          total_retransmissions := s0.total_retransmissions + 1,
          timeout_retransmissions := s0.timeout_retransmissions + 1 },
       [create_packet q d]) := by
  rw [timeoutReact, hd]
  dsimp only
  rw [send_packet]
  dsimp only
  rw [hv]
  rfl

theorem fold_timeoutReact_spec (now : ℚ) : ∀ (ks : List ℕ) (s0 : SenderState)
    (acc : List (List ℕ)),
    (∀ q ∈ ks, ∃ d, lookupA s0.chunks q = some d) →
    (∀ q ∈ ks, ∃ v, lookupA s0.unacked_packets q = some v) →
    ks.Nodup →
    (s0.unacked_packets.map Prod.fst).Nodup →
    (ks.foldl (fun a q => ((timeoutReact a.1 q now).1,
        a.2 ++ (timeoutReact a.1 q now).2)) (s0, acc)) =
      ({ s0 with
          ssthresh := if ks = [] then s0.ssthresh
            else if ks.length = 1 then max (ratInt (s0.cwnd / 2)) 2 else 2,
          cwnd := if ks = [] then s0.cwnd else 1,
          state := if ks = [] then s0.state else Phase.slow_start,
          unacked_packets := s0.unacked_packets.map (fun e =>
            if e.1 ∈ ks then
              (e.1, (create_packet e.1 ((lookupA s0.chunks e.1).getD []),
                now, e.2.2.2 + 1))
            else e),
          total_retransmissions := s0.total_retransmissions + ks.length,
          timeout_retransmissions :=
            s0.timeout_retransmissions + ks.length },
        acc ++ ks.map (fun q =>
          create_packet q ((lookupA s0.chunks q).getD []))) := by
  intro ks
  induction ks with
  | nil =>
      intro s0 acc _ _ _ _
      simp
  | cons q ks ih =>
      intro s0 acc hchunks hun hnodup huq
      obtain ⟨d, hd⟩ := hchunks q (List.mem_cons_self q ks)
      obtain ⟨⟨pd, t, rc⟩, hv⟩ := hun q (List.mem_cons_self q ks)
      have hstep := timeoutReact_spec s0 q now d pd t rc hd hv
      rw [List.foldl_cons, hstep]
      dsimp only
      rw [List.nodup_cons] at hnodup
      have hih := ih ({ s0 with
          ssthresh := max (ratInt (s0.cwnd / 2)) 2,
          cwnd := 1,
          state := Phase.slow_start,
          unacked_packets :=
            updateA s0.unacked_packets q (create_packet q d, now, rc + 1),
          total_retransmissions := s0.total_retransmissions + 1,
          timeout_retransmissions := s0.timeout_retransmissions + 1 })
        (acc ++ [create_packet q d])
        (by
          intro q' hq'
          exact hchunks q' (List.mem_cons_of_mem q hq'))
        (by
          intro q' hq'
          have hne : q' ≠ q := fun h => hnodup.1 (h ▸ hq')
          dsimp only
          rw [lookupA_updateA_ne s0.unacked_packets q q' _ hne]
          exact hun q' (List.mem_cons_of_mem q hq'))
        hnodup.2
        (by
          dsimp only
          rw [updateA_map_fst]
          exact huq)
      rw [hih]
      have hqentry : (q, (pd, t, rc)) ∈ s0.unacked_packets := lookupA_mem hv
      have hqks : q ∉ ks := hnodup.1
      refine Prod.ext ?_ ?_
      · dsimp only
        rw [SenderState.mk.injEq]
        refine ⟨rfl, ?_, ?_, ?_, rfl, ?_, rfl, rfl, rfl, rfl,
          by rw [List.length_cons]; omega, by rw [List.length_cons]; omega,
          rfl, rfl⟩
        · by_cases hks : ks = [] <;> simp [hks]
        · by_cases hks : ks = []
          · simp [hks]
          · rw [if_neg hks, if_neg (by simp : ¬(q :: ks = [])),
              if_neg (by simp [hks] : ¬((q :: ks).length = 1))]
            by_cases hk1 : ks.length = 1
            · rw [if_pos hk1]
              have h0 : ratInt ((1 : ℚ) / 2) = 0 := by
                rw [ratInt, if_pos (by norm_num)]
                rw [Int.floor_eq_zero_iff]
                norm_num [Set.mem_Ico]
              rw [h0]
              decide
            · rw [if_neg hk1]
        · by_cases hks : ks = [] <;> simp [hks]
        · rw [updateA, List.map_map]
          refine List.map_congr_left ?_
          intro e he
          by_cases heq : e.1 = q
          · have hee : e = (q, (pd, t, rc)) :=
              nodup_keys_entry_eq huq he hqentry heq
            subst hee
            simp [hd, hqks]
          · simp only [Function.comp_apply, if_neg heq]
            by_cases hin : e.1 ∈ ks
            · simp [hin, List.mem_cons, heq]
            · simp [hin, List.mem_cons, heq]
      · dsimp only
        rw [List.map_cons, hd]
        simp [List.append_assoc]

/-- C3: on a timeout poll, an `unacked_packets` entry is classified as
timed out exactly when `now - last_send_time > 0.5`; each timed-out
segment is retransmitted with its original payload, its entry getting
`last_send_time = now` and an incremented retransmit count, the timeout
counters grow by the number of timed-out segments, and when at least
one segment timed out the sender sets `cwnd := 1`,
`phase := slow_start`, and `ssthresh := max(⌊cwnd/2⌋, 2)` per segment
(so `max(⌊cwnd/2⌋, 2)` of the pre-poll `cwnd` if exactly one timed out,
and 2 — the floor — if several did, since `cwnd` is already 1 by the
second reaction).  Hypotheses: every unacked entry references a chunk,
and the unacked keys are distinct (both data-model invariants of the
Python dict). -/
theorem C3_timeout_retransmission (s : SenderState) (now : ℚ)
    (hchunks : ∀ e ∈ s.unacked_packets, ∃ d, lookupA s.chunks e.1 = some d)
    (hnodup : (s.unacked_packets.map Prod.fst).Nodup) :
    (∀ e ∈ s.unacked_packets,
      (e ∈ s.unacked_packets.filter
          (fun e => decide ((1 : ℚ) / 2 < now - e.2.2.1)) ↔
        (1 : ℚ) / 2 < now - e.2.2.1)) ∧
    (check_timeouts s now).2 =
      (s.unacked_packets.filter
        (fun e => decide ((1 : ℚ) / 2 < now - e.2.2.1))).map
        (fun e => create_packet e.1 ((lookupA s.chunks e.1).getD [])) ∧
    (check_timeouts s now).1.unacked_packets =
      s.unacked_packets.map (fun e =>
        if (1 : ℚ) / 2 < now - e.2.2.1 then
          (e.1, (create_packet e.1 ((lookupA s.chunks e.1).getD []), now,
            e.2.2.2 + 1))
        else e) ∧
    (check_timeouts s now).1.total_retransmissions =
      s.total_retransmissions +
        (s.unacked_packets.filter
          (fun e => decide ((1 : ℚ) / 2 < now - e.2.2.1))).length ∧
    (check_timeouts s now).1.timeout_retransmissions =
      s.timeout_retransmissions +
        (s.unacked_packets.filter
          (fun e => decide ((1 : ℚ) / 2 < now - e.2.2.1))).length ∧
    (check_timeouts s now).1.fast_retransmissions = s.fast_retransmissions ∧
    ((s.unacked_packets.filter
        (fun e => decide ((1 : ℚ) / 2 < now - e.2.2.1))) = [] →
      (check_timeouts s now).1 = s) ∧
    ((s.unacked_packets.filter
        (fun e => decide ((1 : ℚ) / 2 < now - e.2.2.1))) ≠ [] →
      (check_timeouts s now).1.cwnd = 1 ∧
      (check_timeouts s now).1.state = Phase.slow_start ∧
      ((s.unacked_packets.filter
          (fun e => decide ((1 : ℚ) / 2 < now - e.2.2.1))).length = 1 →
        (check_timeouts s now).1.ssthresh = max ⌊s.cwnd / 2⌋ 2) ∧
      (2 ≤ (s.unacked_packets.filter
          (fun e => decide ((1 : ℚ) / 2 < now - e.2.2.1))).length →
        (check_timeouts s now).1.ssthresh = 2)) := by
  have hks_nodup : (((s.unacked_packets.filter
      (fun e => decide ((1 : ℚ) / 2 < now - e.2.2.1))).map Prod.fst)).Nodup :=
    hnodup.sublist (List.Sublist.map Prod.fst (List.filter_sublist _))
  have hfold := fold_timeoutReact_spec now
    ((s.unacked_packets.filter
      (fun e => decide ((1 : ℚ) / 2 < now - e.2.2.1))).map Prod.fst) s []
    (by
      intro q hq
      rcases List.mem_map.1 hq with ⟨e, he, rfl⟩
      exact hchunks e (List.mem_of_mem_filter he))
    (by
      intro q hq
      rcases List.mem_map.1 hq with ⟨e, he, rfl⟩
      obtain ⟨a, b⟩ := e
      exact ⟨b, lookupA_mem_of_nodup hnodup (List.mem_of_mem_filter he)⟩)
    hks_nodup
    hnodup
  rw [check_timeouts]
  simp only []
  rw [hfold]
  dsimp only
  refine ⟨?_, ?_, ?_, ?_, ?_, rfl, ?_, ?_⟩
  · intro e he
    simp [List.mem_filter, he]
  · rw [List.map_map]
    rfl
  · refine List.map_congr_left ?_
    intro e he
    have hmem : e.1 ∈ (s.unacked_packets.filter
        (fun e => decide ((1 : ℚ) / 2 < now - e.2.2.1))).map Prod.fst ↔
        ((1 : ℚ) / 2 < now - e.2.2.1) := by
      constructor
      · intro h
        rcases List.mem_map.1 h with ⟨f, hf, hfe⟩
        have hf1 := List.mem_filter.1 hf
        have : f = e := nodup_keys_entry_eq hnodup hf1.1 he hfe
        subst this
        simpa using hf1.2
      · intro h
        exact List.mem_map.2 ⟨e, List.mem_filter.2 ⟨he, by simpa using h⟩, rfl⟩
    by_cases hc : (1 : ℚ) / 2 < now - e.2.2.1
    · rw [if_pos (hmem.2 hc), if_pos hc]
    · rw [if_neg (fun h => hc (hmem.1 h)), if_neg hc]
  · rw [List.length_map]
  · rw [List.length_map]
  · intro hT
    rw [hT]
    simp
  · intro hT
    have hTne : (s.unacked_packets.filter
        (fun e => decide ((1 : ℚ) / 2 < now - e.2.2.1))).map Prod.fst ≠ [] := by
      intro h
      exact hT (List.map_eq_nil_iff.1 h)
    refine ⟨by rw [if_neg hTne], by rw [if_neg hTne], ?_, ?_⟩
    · intro h1
      rw [if_neg hTne, if_pos (by rw [List.length_map]; exact h1)]
      exact max_ratInt_two (s.cwnd / 2)
    · intro h2
      rw [if_neg hTne, if_neg (by rw [List.length_map]; omega)]

/-- Witness for C3: the sender for a 3-byte file right after sending
its single chunk at time 0, polled at time 1 (> 0.5 s later). -/
theorem C3_witness :
    (check_timeouts (pump_send (initSender [1, 2, 3]) 0).1 1).1.cwnd = 1 ∧
    (check_timeouts (pump_send (initSender [1, 2, 3]) 0).1 1).1.state
      = Phase.slow_start ∧
    (check_timeouts (pump_send (initSender [1, 2, 3]) 0).1 1).1.ssthresh
      = max ⌊(pump_send (initSender [1, 2, 3]) 0).1.cwnd / 2⌋ 2 := by
  have h := C3_timeout_retransmission (pump_send (initSender [1, 2, 3]) 0).1 1
    (by
      intro e he
      rw [show (pump_send (initSender [1, 2, 3]) 0).1.unacked_packets
          = [(0, (create_packet 0 [1, 2, 3], (0 : ℚ), 0))] from rfl] at he
      simp at he
      rw [he]
      exact ⟨[1, 2, 3], rfl⟩)
    (by decide)
  have hpred : ((1 : ℚ) / 2 < 1 - (0 : ℚ)) := by norm_num
  have hfil : (pump_send (initSender [1, 2, 3]) 0).1.unacked_packets.filter
      (fun e => decide ((1 : ℚ) / 2 < 1 - e.2.2.1))
      = [(0, (create_packet 0 [1, 2, 3], (0 : ℚ), 0))] := by
    rw [show (pump_send (initSender [1, 2, 3]) 0).1.unacked_packets
        = [(0, (create_packet 0 [1, 2, 3], (0 : ℚ), 0))] from rfl]
    simp only [List.filter_cons, List.filter_nil]
    rw [if_pos]
    exact decide_eq_true (by norm_num)
  obtain ⟨hcw, hst, hss, _⟩ := h.2.2.2.2.2.2.2
    (by rw [hfil]; exact List.cons_ne_nil _ _)
  exact ⟨hcw, hst, hss (by rw [hfil]; rfl)⟩

/-! ## The inductive invariant of reachable sender states -/

theorem handle_ack_stale (s : SenderState) (n : ℕ) (now : ℚ)
    (h : (n : ℤ) < s.last_ack_received) : handle_ack s n now = (s, []) := by
  rw [handle_ack, if_neg (by omega), if_neg (by omega)]

theorem handle_ack_dup_no_trigger (s : SenderState) (n : ℕ) (now : ℚ)
    (hn : (n : ℤ) = s.last_ack_received)
    (h3 : s.duplicate_ack_count + 1 ≠ 3) :
    handle_ack s n now =
      ({ s with duplicate_ack_count := s.duplicate_ack_count + 1 }, []) := by
  rw [handle_ack, if_pos hn]
  dsimp only
  rw [if_neg h3]

theorem handle_ack_dup_trigger_insert (s : SenderState) (n : ℕ) (now : ℚ)
    (d : List ℕ) (hn : (n : ℤ) = s.last_ack_received)
    (h3 : s.duplicate_ack_count + 1 = 3)
    (hd : lookupA s.chunks n = some d)
    (hu : lookupA s.unacked_packets n = none) :
    handle_ack s n now =
      ({ s with
          unacked_packets :=
            s.unacked_packets ++ [(n, (create_packet n d, now, 1))],
          total_retransmissions := s.total_retransmissions + 1,
          fast_retransmissions := s.fast_retransmissions + 1,
          ssthresh := max (ratInt (s.cwnd / 2)) 2,
          cwnd := ((max (ratInt (s.cwnd / 2)) 2 : ℤ) : ℚ) + 3,
          state := Phase.congestion_avoidance,
          duplicate_ack_count := 0 }, [create_packet n d]) := by
  rw [handle_ack, if_pos hn]
  dsimp only
  rw [if_pos h3, fastRetransmitBlock]
  dsimp only
  rw [hd]
  dsimp only
  rw [hu]

theorem senderInv_init (file : List ℕ) : SenderInv file (initSender file) :=
  ⟨rfl, by simp [initSender], by norm_num [initSender],
    by norm_num [initSender], rfl, by simp [initSender], by simp [initSender],
    by simp [initSender]⟩

theorem lookupA_read_file_some {file : List ℕ} {q : ℕ} {d : List ℕ}
    (h : lookupA (read_file file) q = some d) : d ≠ [] := by
  have hmem := lookupA_mem h
  exact read_file_mem_snd_ne_nil hmem

theorem senderInv_fastRetransmitBlock (file : List ℕ) (s : SenderState)
    (n : ℕ) (now : ℚ) (hinv : SenderInv file s) :
    SenderInv file (fastRetransmitBlock s n now).1 := by
  obtain ⟨h1, h2, h3, h4, h5, h6, h8, h9⟩ := hinv
  rw [fastRetransmitBlock]
  cases hd : lookupA s.chunks n with
  | none => exact ⟨h1, h2, h3, h4, h5, h6, h8, h9⟩
  | some d =>
      dsimp only
      have hdne : d ≠ [] := lookupA_read_file_some (h1 ▸ hd)
      have hss2 : (2 : ℤ) ≤ max (ratInt (s.cwnd / 2)) 2 := le_max_right _ _
      have hcw1 : (1 : ℚ) ≤ ((max (ratInt (s.cwnd / 2)) 2 : ℤ) : ℚ) + 3 := by
        have : ((2 : ℤ) : ℚ) ≤ ((max (ratInt (s.cwnd / 2)) 2 : ℤ) : ℚ) := by
          exact_mod_cast hss2
        linarith
      have hentry9 : ∀ e ∈ s.unacked_packets,
          ∃ d', lookupA s.chunks e.1 = some d' ∧ d' ≠ [] := h9
      refine ⟨h1, h2, hcw1, hss2, ?_, h6, ?_, ?_⟩
      · show s.total_retransmissions + 1
          = s.timeout_retransmissions + (s.fast_retransmissions + 1)
        omega
      · cases hu : lookupA s.unacked_packets n with
        | none =>
            dsimp only
            rw [List.map_append]
            rw [List.nodup_append]
            refine ⟨h8, by simp, ?_⟩
            intro a ha
            simp only [List.map_cons, List.map_nil, List.mem_singleton]
            intro han
            subst han
            rcases List.mem_map.1 ha with ⟨e, he, hae⟩
            have := (lookupA_eq_none_iff.1 hu) e he
            exact this hae
        | some v =>
            obtain ⟨pd, t, rc⟩ := v
            dsimp only
            rw [updateA_map_fst]
            exact h8
      · cases hu : lookupA s.unacked_packets n with
        | none =>
            dsimp only
            intro e he
            rcases List.mem_append.1 he with he | he
            · exact hentry9 e he
            · simp at he
              refine ⟨d, ?_, hdne⟩
              rw [show e.1 = n by rw [he], hd]
        | some v =>
            obtain ⟨pd, t, rc⟩ := v
            dsimp only
            intro e he
            rcases mem_updateA he with he | he
            · exact hentry9 e he
            · subst he
              exact ⟨d, by rw [hd], hdne⟩

theorem senderInv_handle_ack (file : List ℕ) (s : SenderState) (n : ℕ)
    (now : ℚ) (hinv : SenderInv file s) :
    SenderInv file (handle_ack s n now).1 := by
  rcases lt_trichotomy ((n : ℤ)) s.last_ack_received with hlt | heq | hgt
  · rw [handle_ack_stale s n now hlt]
    exact hinv
  · obtain ⟨h1, h2, h3, h4, h5, h6, h8, h9⟩ := hinv
    rw [handle_ack, if_pos heq]
    simp only []
    by_cases h3eq : s.duplicate_ack_count + 1 = 3
    · rw [if_pos h3eq]
      exact senderInv_fastRetransmitBlock file _ n now
        ⟨h1, h2, h3, h4, h5, h6, h8, h9⟩
    · rw [if_neg h3eq]
      exact ⟨h1, h2, h3, h4, h5, h6, h8, h9⟩
  · obtain ⟨h1, h2, h3, h4, h5, h6, h8, h9⟩ := hinv
    have spec := handle_ack_new_spec s n now hgt
    obtain ⟨hsn, hch, hun, hlar, hlas, hdup, htot, htim, hfa, hci, hss,
      hslow, hca⟩ := spec
    have hcw' : 1 ≤ (handle_ack s n now).1.cwnd := by
      cases hphase : s.state with
      | slow_start =>
          obtain ⟨hcw, _⟩ := hslow hphase
          rw [hcw]
          have : (0 : ℚ) ≤ ((s.unacked_packets.filter
              (fun e => ackCovered s.chunks n e.1)).length : ℚ) := by
            exact_mod_cast Nat.zero_le _
          linarith
      | congestion_avoidance =>
          obtain ⟨_, hcw⟩ := hca hphase
          rw [hcw]
          split
          · rename_i hc1
            rw [ratInt_eq_floor (by linarith)]
            have : (1 : ℤ) ≤ ⌊s.cwnd + ((s.unacked_packets.filter
                (fun e => ackCovered s.chunks n e.1)).length : ℚ) / s.cwnd⌋ :=
              Int.le_floor.2 (by exact_mod_cast hc1)
            exact_mod_cast this
          · exact le_refl 1
    refine ⟨by rw [hch, h1], by rw [hci, hch]; exact h2, hcw', by rw [hss]; exact h4,
      by rw [htot, htim, hfa]; exact h5, ?_, ?_, ?_⟩
    · rw [hlas, hlar]
      have h0n : (0 : ℤ) ≤ (n : ℤ) := Int.ofNat_nonneg _
      omega
    · rw [hun]
      exact h8.sublist (List.Sublist.map Prod.fst (List.filter_sublist _))
    · intro e he
      rw [hun] at he
      have he' := List.mem_of_mem_filter he
      rcases h9 e he' with ⟨d, hd, hdne⟩
      exact ⟨d, by rw [hch]; exact hd, hdne⟩

theorem map_fst_if_update {α : Type} (l : List (ℕ × α)) (P : ℕ × α → Prop)
    [DecidablePred P] (g : ℕ × α → α) :
    (l.map (fun e => if P e then (e.1, g e) else e)).map Prod.fst
      = l.map Prod.fst := by
  rw [List.map_map]
  refine List.map_congr_left ?_
  intro e _
  by_cases h : P e <;> simp [h]

theorem senderInv_check_timeouts (file : List ℕ) (s : SenderState) (now : ℚ)
    (hinv : SenderInv file s) : SenderInv file (check_timeouts s now).1 := by
  obtain ⟨h1, h2, h3, h4, h5, h6, h8, h9⟩ := hinv
  have hfold := fold_timeoutReact_spec now
    ((s.unacked_packets.filter
      (fun e => decide ((1 : ℚ) / 2 < now - e.2.2.1))).map Prod.fst) s []
    (by
      intro q hq
      rcases List.mem_map.1 hq with ⟨e, he, rfl⟩
      rcases h9 e (List.mem_of_mem_filter he) with ⟨d, hd, _⟩
      exact ⟨d, hd⟩)
    (by
      intro q hq
      rcases List.mem_map.1 hq with ⟨e, he, rfl⟩
      obtain ⟨a, b⟩ := e
      exact ⟨b, lookupA_mem_of_nodup h8 (List.mem_of_mem_filter he)⟩)
    (h8.sublist (List.Sublist.map Prod.fst (List.filter_sublist _)))
    h8
  rw [check_timeouts]
  simp only []
  rw [hfold]
  refine ⟨h1, h2, ?_, ?_, ?_, h6, ?_, ?_⟩
  · dsimp only
    split
    · exact h3
    · norm_num
  · dsimp only
    split
    · exact h4
    · split
      · exact le_max_right _ _
      · exact le_refl 2
  · dsimp only
    omega
  · dsimp only
    rw [map_fst_if_update]
    exact h8
  · dsimp only
    intro e he
    rcases List.mem_map.1 he with ⟨f, hf, hfe⟩
    rcases h9 f hf with ⟨d, hd, hdne⟩
    by_cases hc : f.1 ∈ (s.unacked_packets.filter
        (fun e => decide ((1 : ℚ) / 2 < now - e.2.2.1))).map Prod.fst
    · rw [if_pos hc] at hfe
      refine ⟨d, ?_, hdne⟩
      rw [← hfe]
      exact hd
    · rw [if_neg hc] at hfe
      rw [← hfe]
      exact ⟨d, hd, hdne⟩

theorem senderInv_pump_send (file : List ℕ) (s : SenderState) (now : ℚ)
    (hinv : SenderInv file s) (hidx : s.chunk_index < s.chunks.length) :
    SenderInv file (pump_send s now).1 := by
  obtain ⟨h1, h2, h3, h4, h5, h6, h8, h9⟩ := hinv
  have hidx' : s.chunk_index < (read_file file).length := by
    rw [← h1]
    exact hidx
  have hc : s.chunks.getD s.chunk_index (0, []) =
      (1024 * s.chunk_index,
        (file.drop (1024 * s.chunk_index)).take 1024) := by
    rw [h1, List.getD_eq_getElem?_getD, List.getElem?_eq_getElem hidx',
      read_file_getElem_eq file hidx']
    rfl
  have hdne : ((file.drop (1024 * s.chunk_index)).take 1024) ≠ [] := by
    have := read_file_snd_ne_nil file hidx'
    rw [read_file_getElem_eq file hidx'] at this
    exact this
  have hlookup : lookupA s.chunks (1024 * s.chunk_index) =
      some ((file.drop (1024 * s.chunk_index)).take 1024) := by
    rw [h1]
    have := lookupA_read_file_getElem file hidx'
    rw [read_file_getElem_eq file hidx'] at this
    exact this
  rw [pump_send]
  simp only []
  rw [hc]
  rw [send_packet]
  simp only []
  cases hu : lookupA s.unacked_packets (1024 * s.chunk_index) with
  | none =>
      dsimp only
      rw [if_neg (by simp)]
      refine ⟨h1, by dsimp only; omega, h3, h4, h5, h6, ?_, ?_⟩
      · dsimp only
        rw [List.map_append, List.nodup_append]
        refine ⟨h8, by simp, ?_⟩
        intro a ha
        simp only [List.map_cons, List.map_nil, List.mem_singleton]
        intro han
        subst han
        rcases List.mem_map.1 ha with ⟨e, he, hae⟩
        exact (lookupA_eq_none_iff.1 hu) e he hae
      · dsimp only
        intro e he
        rcases List.mem_append.1 he with he | he
        · exact h9 e he
        · simp at he
          refine ⟨(file.drop (1024 * s.chunk_index)).take 1024, ?_, hdne⟩
          rw [show e.1 = 1024 * s.chunk_index by rw [he], hlookup]
  | some v =>
      obtain ⟨pd, t, rc⟩ := v
      dsimp only
      rw [if_neg (by simp)]
      refine ⟨h1, by dsimp only; omega, h3, h4,
        by show s.total_retransmissions + 1
            = s.timeout_retransmissions + (s.fast_retransmissions + 1); omega,
        h6, ?_, ?_⟩
      · dsimp only
        rw [updateA_map_fst]
        exact h8
      · dsimp only
        intro e he
        rcases mem_updateA he with he | he
        · exact h9 e he
        · subst he
          exact ⟨(file.drop (1024 * s.chunk_index)).take 1024, hlookup, hdne⟩

theorem senderReachable_inv (file : List ℕ) (s : SenderState)
    (h : SenderReachable file s) : SenderInv file s := by
  induction h with
  | init => exact senderInv_init file
  | ack s n now _ ih => exact senderInv_handle_ack file s n now ih
  | timeout s now _ ih => exact senderInv_check_timeouts file s now ih
  | send s now _ hidx hcan ih => exact senderInv_pump_send file s now ih hidx

/-! ## C5, C7, C8: reachable-state properties of the sender -/

/-- C7: in every reachable sender state `cwnd ≥ 1` and `ssthresh ≥ 2`
(the initial 64 and every halving `max(⌊cwnd/2⌋, 2)` keep the
bounds). -/
theorem C7_window_invariants (file : List ℕ) (s : SenderState)
    (h : SenderReachable file s) : 1 ≤ s.cwnd ∧ 2 ≤ s.ssthresh := by
  have hi := senderReachable_inv file s h
  exact ⟨hi.2.2.1, hi.2.2.2.1⟩

/-- Witness for C7 at the initial sender state of a 2-byte file. -/
theorem C7_witness :
    1 ≤ (initSender [1, 2]).cwnd ∧ 2 ≤ (initSender [1, 2]).ssthresh :=
  C7_window_invariants [1, 2] _ SenderReachable.init

set_option maxRecDepth 100000 in
/-- C5 counterexample: the state `cexS7` is reachable — pump send of
chunk 0, cumulative ACK 1024, three duplicate ACKs 1024 (the third fast
retransmits the never-pump-sent chunk at seq 1024), cumulative ACK 1025
and finally the pump send of `chunks[1]` — and in it the in-flight
count computed by `can_send_more` is 0 while `|unacked_packets| = 1`:
the claimed equality is false on the program.  (The re-sent entry at
seq 1024 satisfies `1024 + 1 ≤ last_acked_seq + 1 = 1025`, so the
filter drops it.) -/
theorem C5_counterexample :
    SenderReachable cexFile cexS7 ∧
    in_flight_count cexS7 = 0 ∧
    cexS7.unacked_packets.length = 1 ∧
    ¬ in_flight_count cexS7 = cexS7.unacked_packets.length := by
  -- Facts about cexS1 (pump send of chunk 0 at time 0).
  have f1chunks : cexS1.chunks = read_file cexFile := rfl
  have f1lar : cexS1.last_ack_received = -1 := rfl
  have f1las : cexS1.last_acked_seq = -1 := rfl
  have f1state : cexS1.state = Phase.slow_start := rfl
  have f1cw : cexS1.cwnd = 1 := rfl
  have f1ss : cexS1.ssthresh = 64 := rfl
  have f1ci : cexS1.chunk_index = 1 := rfl
  -- Facts about cexS2 (new cumulative ACK 1024).
  have hNew1 : cexS1.last_ack_received < ((1024 : ℕ) : ℤ) := by
    rw [f1lar]; decide
  obtain ⟨-, sp2ch, sp2un, sp2lar, sp2las, sp2dup, -, -, -, sp2ci, sp2ss,
    sp2slow, -⟩ := handle_ack_new_spec cexS1 1024 1 hNew1
  have hfil2 : cexS1.unacked_packets.filter
      (fun e => !(ackCovered cexS1.chunks 1024 e.1)) = [] := by decide
  have hK2 : (cexS1.unacked_packets.filter
      (fun e => ackCovered cexS1.chunks 1024 e.1)).length = 1 := by decide
  have c2chunks : cexS2.chunks = read_file cexFile := by
    show (handle_ack cexS1 1024 1).1.chunks = read_file cexFile
    rw [sp2ch, f1chunks]
  have c2un : cexS2.unacked_packets = [] := by
    show (handle_ack cexS1 1024 1).1.unacked_packets = []
    rw [sp2un, hfil2]
  have c2lar : cexS2.last_ack_received = 1024 := by
    show (handle_ack cexS1 1024 1).1.last_ack_received = 1024
    rw [sp2lar]; rfl
  have c2las : cexS2.last_acked_seq = 1023 := by
    show (handle_ack cexS1 1024 1).1.last_acked_seq = 1023
    rw [sp2las, f1las]; decide
  have c2dup : cexS2.duplicate_ack_count = 0 := by
    show (handle_ack cexS1 1024 1).1.duplicate_ack_count = 0
    rw [sp2dup]
  have c2ci : cexS2.chunk_index = 1 := by
    show (handle_ack cexS1 1024 1).1.chunk_index = 1
    rw [sp2ci, f1ci]
  have c2cw : cexS2.cwnd = 2 := by
    show (handle_ack cexS1 1024 1).1.cwnd = 2
    rw [(sp2slow f1state).1, f1cw, hK2]
    norm_num
  -- Facts about cexS3 and cexS4 (two duplicate ACKs 1024).
  have hd3 := handle_ack_dup_no_trigger cexS2 1024 1 (by rw [c2lar]; rfl)
    (by rw [c2dup]; decide)
  have hs3 : cexS3 =
      { cexS2 with duplicate_ack_count := cexS2.duplicate_ack_count + 1 } := by
    show (handle_ack cexS2 1024 1).1 = _
    rw [hd3]
  have c3chunks : cexS3.chunks = read_file cexFile := by rw [hs3]; exact c2chunks
  have c3un : cexS3.unacked_packets = [] := by rw [hs3]; exact c2un
  have c3lar : cexS3.last_ack_received = 1024 := by rw [hs3]; exact c2lar
  have c3las : cexS3.last_acked_seq = 1023 := by rw [hs3]; exact c2las
  have c3cw : cexS3.cwnd = 2 := by rw [hs3]; exact c2cw
  have c3dup : cexS3.duplicate_ack_count = 1 := by
    rw [hs3]
    show cexS2.duplicate_ack_count + 1 = 1
    rw [c2dup]
  have hd4 := handle_ack_dup_no_trigger cexS3 1024 1 (by rw [c3lar]; rfl)
    (by rw [c3dup]; decide)
  have hs4 : cexS4 =
      { cexS3 with duplicate_ack_count := cexS3.duplicate_ack_count + 1 } := by
    show (handle_ack cexS3 1024 1).1 = _
    rw [hd4]
  have c4chunks : cexS4.chunks = read_file cexFile := by rw [hs4]; exact c3chunks
  have c4un : cexS4.unacked_packets = [] := by rw [hs4]; exact c3un
  have c4lar : cexS4.last_ack_received = 1024 := by rw [hs4]; exact c3lar
  have c4las : cexS4.last_acked_seq = 1023 := by rw [hs4]; exact c3las
  have c4cw : cexS4.cwnd = 2 := by rw [hs4]; exact c3cw
  have c4dup : cexS4.duplicate_ack_count = 2 := by
    rw [hs4]
    show cexS3.duplicate_ack_count + 1 = 2
    rw [c3dup]
  -- Facts about cexS5 (third duplicate ACK: fast retransmit of the
  -- never-pump-sent chunk at seq 1024).
  have hd5 := handle_ack_dup_trigger_insert cexS4 1024 1 [1] (by rw [c4lar]; rfl)
    (by rw [c4dup]) (by rw [c4chunks]; decide) (by rw [c4un]; rfl)
  have hs5 : cexS5 =
      { cexS4 with
          unacked_packets :=
            cexS4.unacked_packets ++ [(1024, (create_packet 1024 [1], 1, 1))],
          total_retransmissions := cexS4.total_retransmissions + 1,
          fast_retransmissions := cexS4.fast_retransmissions + 1,
          ssthresh := max (ratInt (cexS4.cwnd / 2)) 2,
          cwnd := ((max (ratInt (cexS4.cwnd / 2)) 2 : ℤ) : ℚ) + 3,
          state := Phase.congestion_avoidance,
          duplicate_ack_count := 0 } := by
    show (handle_ack cexS4 1024 1).1 = _
    rw [hd5]
  have c5chunks : cexS5.chunks = read_file cexFile := by rw [hs5]; exact c4chunks
  have c5un : cexS5.unacked_packets
      = [(1024, (create_packet 1024 [1], 1, 1))] := by
    rw [hs5]
    show cexS4.unacked_packets ++ _ = _
    rw [c4un]
    rfl
  have c5lar : cexS5.last_ack_received = 1024 := by rw [hs5]; exact c4lar
  have c5las : cexS5.last_acked_seq = 1023 := by rw [hs5]; exact c4las
  have c5state : cexS5.state = Phase.congestion_avoidance := by rw [hs5]
  have c5cw : cexS5.cwnd = 5 := by
    rw [hs5]
    show ((max (ratInt (cexS4.cwnd / 2)) 2 : ℤ) : ℚ) + 3 = 5
    rw [c4cw, show (2 : ℚ) / 2 = 1 by norm_num,
      ratInt_eq_floor (by norm_num), Int.floor_one,
      show max (1 : ℤ) 2 = 2 from rfl]
    norm_num
  -- Facts about cexS6 (new cumulative ACK 1025: the whole file).
  have hNew5 : cexS5.last_ack_received < ((1025 : ℕ) : ℤ) := by
    rw [c5lar]; decide
  obtain ⟨-, sp6ch, sp6un, sp6lar, sp6las, sp6dup, -, -, -, sp6ci, sp6ss, -,
    sp6ca⟩ := handle_ack_new_spec cexS5 1025 2 hNew5
  have hfil6 : cexS5.unacked_packets.filter
      (fun e => !(ackCovered cexS5.chunks 1025 e.1)) = [] := by
    rw [c5un, c5chunks]; decide
  have hK6 : (cexS5.unacked_packets.filter
      (fun e => ackCovered cexS5.chunks 1025 e.1)).length = 1 := by
    rw [c5un, c5chunks]; decide
  have c6chunks : cexS6.chunks = read_file cexFile := by
    show (handle_ack cexS5 1025 2).1.chunks = read_file cexFile
    rw [sp6ch, c5chunks]
  have c6un : cexS6.unacked_packets = [] := by
    show (handle_ack cexS5 1025 2).1.unacked_packets = []
    rw [sp6un, hfil6]
  have c6las : cexS6.last_acked_seq = 1024 := by
    show (handle_ack cexS5 1025 2).1.last_acked_seq = 1024
    rw [sp6las, c5las]; decide
  have c6ci : cexS6.chunk_index = 1 := by
    show (handle_ack cexS5 1025 2).1.chunk_index = 1
    rw [sp6ci, hs5]
    show cexS4.chunk_index = 1
    rw [hs4]
    show cexS3.chunk_index = 1
    rw [hs3]
    show cexS2.chunk_index = 1
    exact c2ci
  have hfloor : (ratInt (cexS5.cwnd + (((cexS5.unacked_packets.filter
      (fun e => ackCovered cexS5.chunks 1025 e.1)).length : ℕ) : ℚ)
        / cexS5.cwnd) : ℤ) = 5 := by
    rw [hK6, c5cw, show (5 : ℚ) + ((1 : ℕ) : ℚ) / 5 = 26 / 5 by push_cast; ring,
      ratInt_eq_floor (by norm_num), Int.floor_eq_iff]
    constructor <;> norm_num
  have c6cw : cexS6.cwnd = ((5 : ℤ) : ℚ) := by
    show (handle_ack cexS5 1025 2).1.cwnd = ((5 : ℤ) : ℚ)
    rw [(sp6ca c5state).2,
      if_pos (by rw [hK6, c5cw]; push_cast; norm_num), hfloor]
  -- Guards of the two pump sends.
  have h0a : (initSender cexFile).chunk_index
      < (initSender cexFile).chunks.length := by decide
  have h0b : can_send_more (initSender cexFile) = true := by decide
  have h6a : cexS6.chunk_index < cexS6.chunks.length := by
    rw [c6ci, c6chunks]; decide
  have h6b : can_send_more cexS6 = true := by
    rw [can_send_more,
      show in_flight_count cexS6 = 0 by rw [in_flight_count, c6un]; rfl,
      show ratInt cexS6.cwnd = 5 by
        rw [c6cw, ratInt_eq_floor (by norm_num), Int.floor_intCast]]
    decide
  -- Facts about cexS7 (pump send of chunks[1] at time 3).
  have hgetD : cexS6.chunks.getD cexS6.chunk_index (0, []) = (1024, [1]) := by
    rw [c6chunks, c6ci]; decide
  have hlk7 : lookupA cexS6.unacked_packets 1024 = none := by rw [c6un]; rfl
  have e7 : pump_send cexS6 3 =
      ({ cexS6 with
          unacked_packets := cexS6.unacked_packets
            ++ [(1024, (create_packet 1024 [1], 3, 0))],
          chunk_index := cexS6.chunk_index + 1 },
        [create_packet 1024 [1]]) := by
    rw [pump_send]
    simp only []
    rw [hgetD, send_packet]
    simp only []
    rw [hlk7]
    dsimp only
    rw [if_neg (by simp)]
  have c7un : cexS7.unacked_packets
      = [(1024, (create_packet 1024 [1], 3, 0))] := by
    show (pump_send cexS6 3).1.unacked_packets = _
    rw [e7]
    show cexS6.unacked_packets ++ _ = _
    rw [c6un]
    rfl
  have c7chunks : cexS7.chunks = read_file cexFile := by
    show (pump_send cexS6 3).1.chunks = read_file cexFile
    rw [e7]
    exact c6chunks
  have c7las : cexS7.last_acked_seq = 1024 := by
    show (pump_send cexS6 3).1.last_acked_seq = 1024
    rw [e7]
    exact c6las
  -- Reachability of cexS7.
  have R1 : SenderReachable cexFile cexS1 := by
    show SenderReachable cexFile (pump_send (initSender cexFile) 0).1
    exact SenderReachable.send _ 0 SenderReachable.init h0a h0b
  have R2 : SenderReachable cexFile cexS2 := by
    show SenderReachable cexFile (handle_ack cexS1 1024 1).1
    exact SenderReachable.ack _ 1024 1 R1
  have R3 : SenderReachable cexFile cexS3 := by
    show SenderReachable cexFile (handle_ack cexS2 1024 1).1
    exact SenderReachable.ack _ 1024 1 R2
  have R4 : SenderReachable cexFile cexS4 := by
    show SenderReachable cexFile (handle_ack cexS3 1024 1).1
    exact SenderReachable.ack _ 1024 1 R3
  have R5 : SenderReachable cexFile cexS5 := by
    show SenderReachable cexFile (handle_ack cexS4 1024 1).1
    exact SenderReachable.ack _ 1024 1 R4
  have R6 : SenderReachable cexFile cexS6 := by
    show SenderReachable cexFile (handle_ack cexS5 1025 2).1
    exact SenderReachable.ack _ 1025 2 R5
  have R7 : SenderReachable cexFile cexS7 := by
    show SenderReachable cexFile (pump_send cexS6 3).1
    exact SenderReachable.send _ 3 R6 h6a h6b
  -- The in-flight count is 0 (the single entry is fully acknowledged)
  -- while |unacked_packets| = 1.
  have hflight : in_flight_count cexS7 = 0 := by
    rw [in_flight_count, c7un, c7chunks, c7las]
    decide
  have hlen : cexS7.unacked_packets.length = 1 := by rw [c7un]; rfl
  exact ⟨R7, hflight, hlen, by rw [hflight, hlen]; decide⟩

/-- C5 (amended): in every reachable sender state in which every
`unacked_packets` entry still covers an unacknowledged byte
(`seq + payload length > last_acked_seq + 1`), the in-flight count
computed by `can_send_more` equals `|unacked_packets|` and the
admission rule is equivalent to `|unacked_packets| < ⌊cwnd⌋`.  The side
condition is necessary: after a fast retransmit of a chunk the pump has
not yet sent, a cumulative ACK can cover bytes ahead of the pump, and
the subsequent pump send creates an entry violating it (see the
counterexample), in which case the in-flight count is strictly smaller
than `|unacked_packets|`. -/
theorem C5_in_flight_amended (file : List ℕ) (s : SenderState)
    (h : SenderReachable file s)
    (hcov : ∀ e ∈ s.unacked_packets, ∀ d, lookupA s.chunks e.1 = some d →
      s.last_acked_seq + 1 < (e.1 : ℤ) + d.length) :
    in_flight_count s = s.unacked_packets.length ∧
    (can_send_more s = true ↔
      (s.unacked_packets.length : ℤ) < ⌊s.cwnd⌋) := by
  have hi := senderReachable_inv file s h
  have h9 := hi.2.2.2.2.2.2.2
  have hcw := hi.2.2.1
  have hcount : in_flight_count s = s.unacked_packets.length := by
    rw [in_flight_count]
    refine List.countP_eq_length.mpr ?_
    intro e he
    rcases h9 e he with ⟨d, hd, hdne⟩
    rw [hd]
    have hlen : d.length ≠ 0 := fun h0 =>
      hdne (List.eq_nil_of_length_eq_zero h0)
    simp only [Bool.and_eq_true, decide_eq_true_eq]
    exact ⟨hlen, hcov e he d hd⟩
  refine ⟨hcount, ?_⟩
  rw [can_send_more, hcount, ratInt_eq_floor (by linarith)]
  simp only [decide_eq_true_eq]

/-- Witness for C5 at the sender for a 1-byte file right after the pump
sent its single chunk (one in-flight entry, not yet acknowledged). -/
theorem C5_witness :
    in_flight_count (pump_send (initSender [5]) 0).1
        = (pump_send (initSender [5]) 0).1.unacked_packets.length ∧
    (can_send_more (pump_send (initSender [5]) 0).1 = true ↔
      ((pump_send (initSender [5]) 0).1.unacked_packets.length : ℤ)
        < ⌊(pump_send (initSender [5]) 0).1.cwnd⌋) :=
  C5_in_flight_amended [5] _
    (SenderReachable.send _ 0 SenderReachable.init (by decide) (by decide))
    (by
      intro e he d hd
      have hun : (pump_send (initSender [5]) 0).1.unacked_packets
          = [(0, (create_packet 0 [5], 0, 0))] := by decide
      rw [hun] at he
      simp only [List.mem_singleton] at he
      subst he
      rw [show lookupA (pump_send (initSender [5]) 0).1.chunks 0
          = some [5] from by decide] at hd
      have hd' := Option.some.inj hd
      subst hd'
      decide)

/-- C8: in every reachable sender state
`total_retransmissions = timeout_retransmissions + fast_retransmissions`;
moreover, per call: a first-time `send_packet` (seq not in
`unacked_packets`, retransmit flag false) leaves all three counters
unchanged, a timeout retransmission (seq present, flag true) increments
total and timeout by one, a `send_packet` resend with flag false (seq
present) increments total and fast by one, and a triggered fast
retransmit in `handle_ack` increments total and fast by one. -/
theorem C8_retransmission_counters (file : List ℕ) (s : SenderState)
    (h : SenderReachable file s) :
    s.total_retransmissions
      = s.timeout_retransmissions + s.fast_retransmissions ∧
    (∀ (q : ℕ) (d : List ℕ) (now : ℚ), lookupA s.unacked_packets q = none →
      (send_packet s q d false now).1.total_retransmissions
          = s.total_retransmissions ∧
      (send_packet s q d false now).1.timeout_retransmissions
          = s.timeout_retransmissions ∧
      (send_packet s q d false now).1.fast_retransmissions
          = s.fast_retransmissions) ∧
    (∀ (q : ℕ) (d : List ℕ) (now : ℚ), lookupA s.unacked_packets q ≠ none →
      (send_packet s q d true now).1.total_retransmissions
          = s.total_retransmissions + 1 ∧
      (send_packet s q d true now).1.timeout_retransmissions
          = s.timeout_retransmissions + 1 ∧
      (send_packet s q d true now).1.fast_retransmissions
          = s.fast_retransmissions) ∧
    (∀ (q : ℕ) (d : List ℕ) (now : ℚ), lookupA s.unacked_packets q ≠ none →
      (send_packet s q d false now).1.total_retransmissions
          = s.total_retransmissions + 1 ∧
      (send_packet s q d false now).1.timeout_retransmissions
          = s.timeout_retransmissions ∧
      (send_packet s q d false now).1.fast_retransmissions
          = s.fast_retransmissions + 1) ∧
    (∀ (n : ℕ) (now : ℚ) (d : List ℕ), (n : ℤ) = s.last_ack_received →
      s.duplicate_ack_count + 1 = 3 → lookupA s.chunks n = some d →
      (handle_ack s n now).1.total_retransmissions
          = s.total_retransmissions + 1 ∧
      (handle_ack s n now).1.timeout_retransmissions
          = s.timeout_retransmissions ∧
      (handle_ack s n now).1.fast_retransmissions
          = s.fast_retransmissions + 1) := by
  have hi := senderReachable_inv file s h
  refine ⟨hi.2.2.2.2.1, ?_, ?_, ?_, ?_⟩
  · intro q d now hq
    rw [send_packet]
    simp only []
    rw [hq]
    exact ⟨rfl, rfl, rfl⟩
  · intro q d now hq
    cases hu : lookupA s.unacked_packets q with
    | none => exact absurd hu hq
    | some v =>
        obtain ⟨pd, t, rc⟩ := v
        rw [send_packet]
        simp only []
        rw [hu]
        exact ⟨rfl, rfl, rfl⟩
  · intro q d now hq
    cases hu : lookupA s.unacked_packets q with
    | none => exact absurd hu hq
    | some v =>
        obtain ⟨pd, t, rc⟩ := v
        rw [send_packet]
        simp only []
        rw [hu]
        exact ⟨rfl, rfl, rfl⟩
  · intro n now d hdup h3 hd
    rw [handle_ack, if_pos hdup]
    simp only []
    rw [if_pos h3, fastRetransmitBlock]
    simp only []
    rw [hd]
    exact ⟨rfl, rfl, rfl⟩

/-- Witness for C8 at the initial sender state of a 1-byte file,
including a concrete first-time send leaving the counters at zero. -/
theorem C8_witness :
    (initSender [7]).total_retransmissions
        = (initSender [7]).timeout_retransmissions
          + (initSender [7]).fast_retransmissions ∧
    (send_packet (initSender [7]) 0 [7] false 0).1.total_retransmissions
        = (initSender [7]).total_retransmissions := by
  have h := C8_retransmission_counters [7] _ SenderReachable.init
  exact ⟨h.1, (h.2.1 0 [7] 0 rfl).1⟩

/-! ## Receiver invariants: C6 and C10 -/

theorem drainLoop_frame (fuel : ℕ) : ∀ s : ServerState,
    (drainLoop fuel s).client_addr = s.client_addr ∧
    (drainLoop fuel s).ack_timer_active = s.ack_timer_active ∧
    (drainLoop fuel s).total_packets_received = s.total_packets_received ∧
    (drainLoop fuel s).total_checksum_errors = s.total_checksum_errors := by
  induction fuel with
  | zero => intro s; exact ⟨rfl, rfl, rfl, rfl⟩
  | succ f ih =>
      intro s
      rw [drainLoop]
      cases h : lookupA s.received_data s.expected_seq with
      | none => exact ⟨rfl, rfl, rfl, rfl⟩
      | some d =>
          dsimp only
          exact ih _

theorem drainLoop_expected_mono (fuel : ℕ) : ∀ s : ServerState,
    s.expected_seq ≤ (drainLoop fuel s).expected_seq := by
  induction fuel with
  | zero => intro s; exact le_refl _
  | succ f ih =>
      intro s
      rw [drainLoop]
      cases h : lookupA s.received_data s.expected_seq with
      | none => exact le_refl _
      | some d =>
          dsimp only
          calc s.expected_seq ≤ s.expected_seq + d.length := Nat.le_add_right _ _
          _ ≤ _ := ih { s with
              expected_seq := s.expected_seq + d.length,
              received_data := eraseKeyA s.received_data s.expected_seq,
              output_buffer := s.output_buffer ++ [d] }

theorem drainLoop_sum (fuel : ℕ) : ∀ s : ServerState,
    s.expected_seq = (s.output_buffer.map List.length).sum →
    (drainLoop fuel s).expected_seq =
      ((drainLoop fuel s).output_buffer.map List.length).sum := by
  induction fuel with
  | zero => intro s h; exact h
  | succ f ih =>
      intro s h
      rw [drainLoop]
      cases hl : lookupA s.received_data s.expected_seq with
      | none => exact h
      | some d =>
          dsimp only
          refine ih _ ?_
          dsimp only
          rw [List.map_append, List.sum_append, ← h]
          simp

theorem process_packet_inv (s : ServerState) (p : List ℕ) (a : ℕ)
    (hinv : ReceiverInv s) :
    ReceiverInv (process_packet s p a).1 ∧
    s.expected_seq ≤ (process_packet s p a).1.expected_seq ∧
    (∀ x ∈ (process_packet s p a).2, x = s.expected_seq) := by
  obtain ⟨hsum, haddr⟩ := hinv
  rw [process_packet]
  by_cases hlen : p.length < 6
  · rw [if_pos hlen]
    exact ⟨⟨hsum, haddr⟩, le_refl _, by simp⟩
  · rw [if_neg hlen]
    simp only []
    by_cases hck : verify_checksum (p.drop 6)
        (ofBytes2 ((p.drop 4).take 2)) = false
    · rw [if_pos hck]
      exact ⟨⟨hsum, haddr⟩, le_refl _, by simp⟩
    · rw [if_neg hck]
      by_cases haddrnone : s.client_addr = none
      · rw [if_pos haddrnone]
        by_cases hdup : ofBytes4 (p.take 4) < s.expected_seq
        · rw [if_pos hdup]
          refine ⟨⟨hsum, by simp⟩, le_refl _, by simp⟩
        · rw [if_neg hdup]
          by_cases hnew : lookupA s.received_data (ofBytes4 (p.take 4)) = none
          · rw [if_pos hnew]
            refine ⟨⟨?_, ?_⟩, ?_, by simp⟩
            · exact drainLoop_sum _ _ hsum
            · intro _
              rw [(drainLoop_frame _ _).1]
              simp
            · refine le_trans ?_ (drainLoop_expected_mono _ _)
              exact le_rfl
          · rw [if_neg hnew]
            refine ⟨⟨?_, ?_⟩, ?_, by simp⟩
            · exact drainLoop_sum _ _ hsum
            · intro _
              rw [(drainLoop_frame _ _).1]
              simp
            · refine le_trans ?_ (drainLoop_expected_mono _ _)
              exact le_rfl
      · rw [if_neg haddrnone]
        by_cases hdup : ofBytes4 (p.take 4) < s.expected_seq
        · rw [if_pos hdup]
          exact ⟨⟨hsum, haddr⟩, le_refl _, by simp⟩
        · rw [if_neg hdup]
          by_cases hnew : lookupA s.received_data (ofBytes4 (p.take 4)) = none
          · rw [if_pos hnew]
            refine ⟨⟨?_, ?_⟩, ?_, by simp⟩
            · exact drainLoop_sum _ _ hsum
            · intro _
              rw [(drainLoop_frame _ _).1]
              exact haddrnone
            · refine le_trans ?_ (drainLoop_expected_mono _ _)
              exact le_rfl
          · rw [if_neg hnew]
            refine ⟨⟨?_, ?_⟩, ?_, by simp⟩
            · exact drainLoop_sum _ _ hsum
            · intro _
              rw [(drainLoop_frame _ _).1]
              exact haddrnone
            · refine le_trans ?_ (drainLoop_expected_mono _ _)
              exact le_rfl

theorem receiverReachable_inv (s : ServerState) (h : ReceiverReachable s) :
    ReceiverInv s := by
  induction h with
  | init => exact ⟨rfl, by simp [initServer]⟩
  | step s p a _ ih => exact (process_packet_inv s p a ih).1
  | fire s _ ih =>
      obtain ⟨hsum, haddr⟩ := ih
      rw [send_ack_after_rtt]
      split
      · exact ⟨hsum, haddr⟩
      · exact ⟨hsum, haddr⟩

/-- C6: in every reachable receiver state, an accepted packet whose seq
is strictly below `expected_seq` elicits exactly one immediate ACK
carrying the current `expected_seq`, and leaves `expected_seq`, the
out-of-order buffer, the delivered sequence, the client address and the
delayed-ACK timer flag unchanged (only the received-packet counter is
bumped). -/
theorem C6_duplicate_ack_frame (s : ServerState) (seq : ℕ) (data : List ℕ)
    (a : ℕ) (hre : ReceiverReachable s) (hseq32 : seq < 2 ^ 32)
    (hdup : seq < s.expected_seq) :
    (process_packet s (create_packet seq data) a).1.expected_seq
      = s.expected_seq ∧
    (process_packet s (create_packet seq data) a).1.received_data
      = s.received_data ∧
    (process_packet s (create_packet seq data) a).1.output_buffer
      = s.output_buffer ∧
    (process_packet s (create_packet seq data) a).1.client_addr
      = s.client_addr ∧
    (process_packet s (create_packet seq data) a).1.ack_timer_active
      = s.ack_timer_active ∧
    (process_packet s (create_packet seq data) a).2 = [s.expected_seq] := by
  have hinv := receiverReachable_inv s hre
  have haddr : s.client_addr ≠ none := hinv.2 (Nat.pos_of_ne_zero (by omega))
  rw [process_packet]
  rw [if_neg (by rw [create_packet_length]; omega)]
  simp only []
  rw [create_packet_take4, create_packet_drop4_take2, create_packet_drop6,
    ofBytes4_toBytes4 hseq32,
    ofBytes2_toBytes2 (calculate_checksum_lt data)]
  rw [if_neg (by simp [verify_checksum])]
  rw [if_neg haddr]
  rw [if_pos hdup]
  exact ⟨rfl, rfl, rfl, rfl, rfl, rfl⟩

/-- Witness for C6: the receiver that has delivered a 2-byte segment at
seq 0 receives a duplicate of it. -/
theorem C6_witness :
    (let s : ServerState :=
      (process_packet initServer (create_packet 0 [5, 6]) 3).1;
     (process_packet s (create_packet 0 [5, 6]) 3).1.expected_seq
        = s.expected_seq ∧
     (process_packet s (create_packet 0 [5, 6]) 3).1.received_data
        = s.received_data ∧
     (process_packet s (create_packet 0 [5, 6]) 3).1.output_buffer
        = s.output_buffer ∧
     (process_packet s (create_packet 0 [5, 6]) 3).1.client_addr
        = s.client_addr ∧
     (process_packet s (create_packet 0 [5, 6]) 3).1.ack_timer_active
        = s.ack_timer_active ∧
     (process_packet s (create_packet 0 [5, 6]) 3).2 = [s.expected_seq]) :=
  C6_duplicate_ack_frame _ 0 [5, 6] 3
    (ReceiverReachable.step _ _ _ ReceiverReachable.init)
    (by decide) (by decide)

/-- C10: in every reachable receiver state `expected_seq` equals the
total length of the delivered payloads, this is preserved by every
`process_packet` call, `expected_seq` never decreases across a call,
and every immediately emitted ACK carries the pre-call `expected_seq`
(which therefore reports exactly the bytes delivered so far). -/
theorem C10_expected_seq_invariant (s : ServerState) (p : List ℕ) (a : ℕ)
    (h : ReceiverReachable s) :
    s.expected_seq = (s.output_buffer.map List.length).sum ∧
    (process_packet s p a).1.expected_seq
      = ((process_packet s p a).1.output_buffer.map List.length).sum ∧
    s.expected_seq ≤ (process_packet s p a).1.expected_seq ∧
    (∀ x ∈ (process_packet s p a).2, x = s.expected_seq) := by
  have hinv := receiverReachable_inv s h
  have hstep := process_packet_inv s p a hinv
  exact ⟨hinv.1, hstep.1.1, hstep.2.1, hstep.2.2⟩

/-- Witness for C10: the fresh receiver processing a 1-byte segment. -/
theorem C10_witness :
    initServer.expected_seq
      = (initServer.output_buffer.map List.length).sum ∧
    (process_packet initServer (create_packet 0 [9]) 1).1.expected_seq
      = ((process_packet initServer (create_packet 0 [9]) 1).1.output_buffer.map
          List.length).sum ∧
    initServer.expected_seq
      ≤ (process_packet initServer (create_packet 0 [9]) 1).1.expected_seq ∧
    (∀ x ∈ (process_packet initServer (create_packet 0 [9]) 1).2,
      x = initServer.expected_seq) :=
  C10_expected_seq_invariant initServer (create_packet 0 [9]) 1
    ReceiverReachable.init

/-! ## C4: order-independence of reassembly -/

theorem read_file_key_inj {file : List ℕ} {c c' : ℕ × List ℕ}
    (hc : c ∈ read_file file) (hc' : c' ∈ read_file file)
    (hk : c.1 = c'.1) : c = c' := by
  rcases read_file_mem_iff.1 hc with ⟨j, hj, rfl⟩
  rcases read_file_mem_iff.1 hc' with ⟨j', hj', rfl⟩
  simp at hk
  rw [show j = j' by omega]

theorem take_succ_map_snd (file : List ℕ) {k : ℕ}
    (hk : k < (read_file file).length) :
    (((read_file file).take (k + 1)).map Prod.snd) =
      (((read_file file).take k).map Prod.snd)
        ++ [(file.drop (1024 * k)).take 1024] := by
  rw [List.take_succ, List.map_append, List.getElem?_eq_getElem hk,
    read_file_getElem_eq file hk]
  rfl

theorem drainLoop_of_lookup_none (fuel : ℕ) (s : ServerState)
    (h : lookupA s.received_data s.expected_seq = none) :
    drainLoop fuel s = s := by
  cases fuel with
  | zero => rfl
  | succ f =>
      rw [drainLoop, h]

theorem drain_reasm (file : List ℕ) : ∀ (fuel : ℕ) (s : ServerState) (k : ℕ)
    (A : List (ℕ × List ℕ)),
    s.received_data.length ≤ fuel →
    ReasmCore file k s → CompleteFor A s →
    ∃ k', ReasmStrict file k' (drainLoop fuel s) ∧
      CompleteFor A (drainLoop fuel s) := by
  intro fuel
  induction fuel with
  | zero =>
      intro s k A hlen hcore hcomp
      have hnil : s.received_data = [] := List.length_eq_zero.1 (by omega)
      refine ⟨k, ⟨hcore, ?_⟩, hcomp⟩
      rw [drainLoop]
      intro e he
      rw [hnil] at he
      simp at he
  | succ f ih =>
      intro s k A hlen hcore hcomp
      obtain ⟨hk, hout, hexp, hrec⟩ := hcore
      rw [drainLoop]
      cases hl : lookupA s.received_data s.expected_seq with
      | none =>
          dsimp only
          refine ⟨k, ⟨⟨hk, hout, hexp, hrec⟩, ?_⟩, hcomp⟩
          intro e he
          have hne := (lookupA_eq_none_iff.1 hl) e he
          have hle := (hrec e he).2
          omega
      | some d =>
          dsimp only
          have hmem : (s.expected_seq, d) ∈ s.received_data := lookupA_mem hl
          have hcs : (s.expected_seq, d) ∈ read_file file := (hrec _ hmem).1
          rcases read_file_mem_iff.1 hcs with ⟨j, hj, hcj⟩
          have hexpj : s.expected_seq = 1024 * j := congrArg Prod.fst hcj
          have hdj : d = (file.drop (1024 * j)).take 1024 :=
            congrArg Prod.snd hcj
          have hjn : 1024 * j < file.length := read_file_start_lt file hj
          have hklen : k < (read_file file).length := by
            rcases Nat.lt_or_ge k (read_file file).length with h | h
            · exact h
            · exfalso
              have hkeq : k = (read_file file).length := le_antisymm hk h
              have hN : file.length ≤ 1024 * (read_file file).length :=
                read_file_length_le file
              rw [hkeq] at hexp
              omega
          have hkn : 1024 * k < file.length := read_file_start_lt file hklen
          have hexpk : s.expected_seq = 1024 * k := by
            rw [hexp]
            omega
          have hjk : j = k := by omega
          subst hjk
          have hdlen : d.length = min 1024 (file.length - 1024 * j) := by
            rw [hdj]
            simp
          refine ih _ (j + 1) A ?_ ⟨?_, ?_, ?_, ?_⟩ ?_
          · dsimp only
            have := eraseKeyA_length_lt hl
            omega
          · dsimp only
            omega
          · dsimp only
            rw [hout, hdj]
            exact (take_succ_map_snd file hklen).symm
          · dsimp only
            rw [hexpk]
            omega
          · dsimp only
            intro e he
            have hein : e ∈ s.received_data := List.mem_of_mem_filter he
            have hkey : e.1 ≠ s.expected_seq := by
              have := (List.mem_filter.1 he).2
              simpa using this
            rcases hrec e hein with ⟨hecs, hele⟩
            refine ⟨hecs, ?_⟩
            rcases read_file_mem_iff.1 hecs with ⟨j', hj', hej⟩
            have hej1 : e.1 = 1024 * j' := congrArg Prod.fst hej
            rw [hexpk] at hkey hele
            have hjj : j < j' := by omega
            have : 1024 * (j + 1) ≤ 1024 * j' := by omega
            rw [hexpk]
            omega
          · dsimp only
            intro c hcA
            rcases hcomp c hcA with hlt | hmem'
            · left
              dsimp only
              have : 0 < d.length := by
                have := List.length_pos.2 (read_file_mem_snd_ne_nil hcs)
                simpa using this
              omega
            · by_cases hck : c.1 = s.expected_seq
              · left
                have hccs : c ∈ read_file file := (hrec c hmem').1
                have hceq : c = (s.expected_seq, d) :=
                  read_file_key_inj hccs hcs hck
                have : 0 < d.length := by
                  have := List.length_pos.2 (read_file_mem_snd_ne_nil hcs)
                  simpa using this
                rw [hceq]
                dsimp only
                omega
              · right
                dsimp only
                rw [eraseKeyA]
                refine List.mem_filter.2 ⟨hmem', ?_⟩
                simpa using hck

theorem process_reasm (file : List ℕ) (s : ServerState) (k : ℕ)
    (A : List (ℕ × List ℕ)) (c : ℕ × List ℕ) (a : ℕ)
    (hN : file.length < 2 ^ 32)
    (hstrict : ReasmStrict file k s) (hcomp : CompleteFor A s)
    (hc : c ∈ read_file file) :
    ∃ k', ReasmStrict file k'
        (process_packet s (create_packet c.1 c.2) a).1 ∧
      CompleteFor (A ++ [c])
        (process_packet s (create_packet c.1 c.2) a).1 := by
  obtain ⟨⟨hk, hout, hexp, hrec⟩, hstr⟩ := hstrict
  rcases read_file_mem_iff.1 hc with ⟨j, hj, hcj⟩
  have hc1 : c.1 = 1024 * j := congrArg Prod.fst hcj
  have hc32 : c.1 < 2 ^ 32 := by
    have := read_file_start_lt file hj
    omega
  rw [process_packet]
  rw [if_neg (by rw [create_packet_length]; omega)]
  simp only []
  rw [create_packet_take4, create_packet_drop4_take2, create_packet_drop6,
    ofBytes4_toBytes4 hc32, ofBytes2_toBytes2 (calculate_checksum_lt c.2)]
  rw [if_neg (by simp [verify_checksum])]
  have hCFsnoc : ∀ t : ServerState, CompleteFor A t → (c.1 < t.expected_seq ∨
      c ∈ t.received_data) → CompleteFor (A ++ [c]) t := by
    intro t hA hcc x hx
    rcases List.mem_append.1 hx with hx | hx
    · exact hA x hx
    · simp at hx
      rw [hx]
      exact hcc
  by_cases haddrnone : s.client_addr = none
  all_goals (
    first
      | rw [if_pos haddrnone]
      | rw [if_neg haddrnone])
  all_goals (
    by_cases hdup : c.1 < s.expected_seq
    · rw [if_pos hdup]
      refine ⟨k, ⟨⟨hk, hout, hexp, ?_⟩, ?_⟩, ?_⟩
      · intro e he
        exact hrec e he
      · intro e he
        exact hstr e he
      · refine hCFsnoc _ (fun x hx => hcomp x hx) ?_
        left
        exact hdup
    · rw [if_neg hdup]
      simp only []
      by_cases hnew : lookupA s.received_data c.1 = none
      · rw [if_pos hnew]
        refine drain_reasm file _ _ k (A ++ [c]) (le_refl _) ⟨hk, hout, hexp, ?_⟩ ?_
        · dsimp only
          intro e he
          rcases List.mem_append.1 he with he | he
          · exact hrec e he
          · simp at he
            rw [he]
            refine ⟨hc, ?_⟩
            show s.expected_seq ≤ c.1
            omega
        · refine hCFsnoc _ ?_ ?_
          · intro x hx
            rcases hcomp x hx with h | h
            · exact Or.inl h
            · exact Or.inr (by dsimp only; exact List.mem_append_left _ h)
          · right
            dsimp only
            refine List.mem_append_right _ ?_
            simp
      · rw [if_neg hnew]
        rw [drainLoop_of_lookup_none _ _ (by
          rw [lookupA_eq_none_iff]
          intro e he
          have h2 := hstr e he
          show e.1 ≠ s.expected_seq
          omega)]
        cases hv : lookupA s.received_data c.1 with
        | none => exact absurd hv hnew
        | some d' =>
            have hmem' : (c.1, d') ∈ s.received_data := lookupA_mem hv
            have hd'cs : (c.1, d') ∈ read_file file := (hrec _ hmem').1
            have hceq : c = (c.1, d') :=
              read_file_key_inj hc hd'cs rfl
            refine ⟨k, ⟨⟨hk, hout, hexp, hrec⟩, hstr⟩, ?_⟩
            refine hCFsnoc _ (fun x hx => hcomp x hx) ?_
            right
            rw [hceq]
            exact hmem')

theorem processAll_reasm (file : List ℕ) (a : ℕ) (hN : file.length < 2 ^ 32) :
    ∀ (o : List (ℕ × List ℕ)) (s : ServerState) (k : ℕ)
      (A : List (ℕ × List ℕ)),
    ReasmStrict file k s → CompleteFor A s →
    (∀ c ∈ o, c ∈ read_file file) →
    ∃ k', ReasmStrict file k'
        (processAll s (o.map (fun c => create_packet c.1 c.2)) a) ∧
      CompleteFor (A ++ o)
        (processAll s (o.map (fun c => create_packet c.1 c.2)) a) := by
  intro o
  induction o with
  | nil =>
      intro s k A hs hA _
      refine ⟨k, hs, ?_⟩
      rw [List.append_nil]
      exact hA
  | cons c o ih =>
      intro s k A hs hA ho
      obtain ⟨k1, hs1, hA1⟩ := process_reasm file s k A c a hN hs hA
        (ho c (List.mem_cons_self c o))
      obtain ⟨k', hs', hA'⟩ := ih (process_packet s (create_packet c.1 c.2) a).1
        k1 (A ++ [c]) hs1 hA1
        (fun c' hc' => ho c' (List.mem_cons_of_mem c hc'))
      refine ⟨k', ?_, ?_⟩
      · rw [List.map_cons]
        exact hs'
      · rw [List.map_cons]
        rw [show A ++ c :: o = (A ++ [c]) ++ o by simp]
        exact hA'

theorem processAll_output (file : List ℕ) (a : ℕ) (hN : file.length < 2 ^ 32)
    (o : List (ℕ × List ℕ))
    (ho1 : ∀ c ∈ o, c ∈ read_file file)
    (ho2 : ∀ c ∈ read_file file, c ∈ o) :
    (processAll initServer (o.map (fun c => create_packet c.1 c.2))
        a).output_buffer = (read_file file).map Prod.snd ∧
    (processAll initServer (o.map (fun c => create_packet c.1 c.2))
        a).expected_seq = file.length ∧
    (processAll initServer (o.map (fun c => create_packet c.1 c.2))
        a).received_data = [] := by
  have hinit : ReasmStrict file 0 initServer := by
    refine ⟨⟨Nat.zero_le _, by simp [initServer], by simp [initServer], ?_⟩, ?_⟩
    · intro e he
      simp [initServer] at he
    · intro e he
      simp [initServer] at he
  have hcompinit : CompleteFor [] initServer := by
    intro x hx
    simp at hx
  obtain ⟨k', ⟨⟨hk, hout, hexp, hrecd⟩, hstr⟩, hcomp⟩ :=
    processAll_reasm file a hN o initServer 0 [] hinit hcompinit ho1
  rw [List.nil_append] at hcomp
  have hkfull : k' = (read_file file).length := by
    by_contra hne
    have hklt : k' < (read_file file).length := lt_of_le_of_ne hk hne
    have hknN : 1024 * k' < file.length := read_file_start_lt file hklt
    have hchunkmem : (read_file file)[k'] ∈ read_file file :=
      List.getElem_mem hklt
    have hco : (read_file file)[k'] ∈ o := ho2 _ hchunkmem
    have hfst : ((read_file file)[k']).1 = 1024 * k' := by
      rw [read_file_getElem_eq file hklt]
    rcases hcomp _ hco with hlt | hmem
    · rw [hfst, hexp] at hlt
      omega
    · have := hstr _ hmem
      rw [hfst, hexp] at this
      omega
  refine ⟨?_, ?_, ?_⟩
  · rw [hout, hkfull, List.take_length]
  · rw [hexp, hkfull]
    have := read_file_length_le file
    omega
  · rw [List.eq_nil_iff_forall_not_mem]
    intro e he
    have h1 := hstr e he
    have h2 := (hrecd e he).1
    rcases read_file_mem_iff.1 h2 with ⟨j, hj, hej⟩
    have hjn : 1024 * j < file.length := read_file_start_lt file hj
    have hfst : e.1 = 1024 * j := congrArg Prod.fst hej
    rw [hexp, hkfull] at h1
    have := read_file_length_le file
    omega

/-- C4: with loss disabled and valid checksums, for every segmentation
produced by `read_file` and any two arrival orders of those segments
(any permutations, possibly with duplicate deliveries — i.e. any two
lists drawn from the segment set that each contain every segment),
processing both through `process_packet` yields the same delivered
sequence, whose concatenation is the original file, and the same final
`expected_seq` (the file length).  The file is assumed to fit the
32-bit wire sequence numbers. -/
theorem C4_reassembly_order_independence (file : List ℕ)
    (o₁ o₂ : List (ℕ × List ℕ)) (a₁ a₂ : ℕ) (hN : file.length < 2 ^ 32)
    (h11 : ∀ c ∈ o₁, c ∈ read_file file)
    (h12 : ∀ c ∈ read_file file, c ∈ o₁)
    (h21 : ∀ c ∈ o₂, c ∈ read_file file)
    (h22 : ∀ c ∈ read_file file, c ∈ o₂) :
    (processAll initServer (o₁.map (fun c => create_packet c.1 c.2))
        a₁).output_buffer =
      (processAll initServer (o₂.map (fun c => create_packet c.1 c.2))
        a₂).output_buffer ∧
    (processAll initServer (o₁.map (fun c => create_packet c.1 c.2))
        a₁).output_buffer.flatten = file ∧
    (processAll initServer (o₁.map (fun c => create_packet c.1 c.2))
        a₁).expected_seq =
      (processAll initServer (o₂.map (fun c => create_packet c.1 c.2))
        a₂).expected_seq ∧
    (processAll initServer (o₁.map (fun c => create_packet c.1 c.2))
        a₁).expected_seq = file.length := by
  obtain ⟨hout1, hexp1, _⟩ := processAll_output file a₁ hN o₁ h11 h12
  obtain ⟨hout2, hexp2, _⟩ := processAll_output file a₂ hN o₂ h21 h22
  refine ⟨by rw [hout1, hout2], ?_, by rw [hexp1, hexp2], hexp1⟩
  rw [hout1]
  exact read_file_flatten file

set_option maxRecDepth 100000 in
/-- Witness for C4: a 1030-byte file (two segments) delivered in-order
versus reversed. -/
theorem C4_witness :
    (processAll initServer
        ([((0 : ℕ), List.replicate 1024 2), (1024, List.replicate 6 2)].map
          (fun c => create_packet c.1 c.2)) 7).output_buffer =
      (processAll initServer
        ([((1024 : ℕ), List.replicate 6 2), (0, List.replicate 1024 2)].map
          (fun c => create_packet c.1 c.2)) 8).output_buffer ∧
    (processAll initServer
        ([((0 : ℕ), List.replicate 1024 2), (1024, List.replicate 6 2)].map
          (fun c => create_packet c.1 c.2)) 7).output_buffer.flatten
      = List.replicate 1030 2 ∧
    (processAll initServer
        ([((0 : ℕ), List.replicate 1024 2), (1024, List.replicate 6 2)].map
          (fun c => create_packet c.1 c.2)) 7).expected_seq =
      (processAll initServer
        ([((1024 : ℕ), List.replicate 6 2), (0, List.replicate 1024 2)].map
          (fun c => create_packet c.1 c.2)) 8).expected_seq ∧
    (processAll initServer
        ([((0 : ℕ), List.replicate 1024 2), (1024, List.replicate 6 2)].map
          (fun c => create_packet c.1 c.2)) 7).expected_seq
      = (List.replicate 1030 2).length :=
  C4_reassembly_order_independence (List.replicate 1030 2)
    [(0, List.replicate 1024 2), (1024, List.replicate 6 2)]
    [(1024, List.replicate 6 2), (0, List.replicate 1024 2)]
    7 8 (by decide) (by decide) (by decide) (by decide) (by decide)
